import Mathlib

/-!
# ASE application shell: `src/core/app.cpp`

A shallow embedding of the `App` class of `src/core/app.cpp`: command-line
parsing (`App::check_args`, `App::usage`), the constructor and destructor, and
the hook registry (`App::add_hook`, `App::trigger_event`).

Modelling conventions.

* A C string (`char*`) is the list of its characters before the terminating NUL.
* Pointers to hooks and palettes are natural-number identities.
* Calls into other modules are recorded, in order, in `World.trace`; their
  return values, where the code looks at them, come from `Env`.  A call is
  assumed to return normally (an `on_event` that throws is outside the model).
* `delete` of a hook pointer that the destructor has already deleted is
  undefined behaviour; the destructor then fails (`none`) and nothing after
  that point is recorded.
* Console and log output (`console.printf`, `PRINTF`) is not modelled, nor are
  `m_instance` and the assertions on it.
* `ustrtok` writes NULs into the resolution value `argv[i]` it splits; that
  argument is never read again, so `argv` is kept immutable.
* Constants declared in headers that are not part of `app.cpp`
  (`MODE_*`, `REQUIRE_INTERFACE`, `AppEvent::NumEvents`, `AppEvent::Exit`) are
  fields of `Env`.
-/

set_option linter.dupNamespace false

namespace Ase

/-! ## Data model -/

/-- C string: the characters before the terminating NUL. -/
abbrev CStr := List Char

/-- Identity of an `IAppHook*`. -/
abbrev IAppHook := Nat

/-- Identity of a `Palette*`. -/
abbrev Palette := Nat

/-- Constants and library functions that `app.cpp` uses but does not define. -/
structure Env where
  /-- Flag `MODE_VERBOSE` of `core/core.h`. -/
  MODE_VERBOSE : Nat
  /-- Flag `MODE_BATCH` of `core/core.h`. -/
  MODE_BATCH : Nat
  /-- Flag `MODE_GUI` of `core/core.h`. -/
  MODE_GUI : Nat
  /-- Flag `REQUIRE_INTERFACE` of `core/modules.h`. -/
  REQUIRE_INTERFACE : Nat
  /-- Enumerator `AppEvent::NumEvents`. -/
  NumEvents : Nat
  /-- Enumerator `AppEvent::Exit`. -/
  Exit : Nat
  /-- Value of `ustrtol(tok, NULL, 10)` once stored in an `int`. -/
  ustrtol : CStr → Int
  /-- Result of `palette_load(filename)`; `none` is `NULL`. -/
  palette_load : CStr → Option Palette

/-- Class `Option` of `app.cpp` (lines 71-91): `m_type` and `m_data`. -/
structure Option_ where
  m_type : Nat
  m_data : CStr
deriving DecidableEq, Repr

/-- Enumerator `Option::OpenSprite`, the only one of its enum. -/
def Option_.OpenSprite : Nat := 0

/-- Exception `ase_exception`, with its message. -/
structure ase_exception where
  what : CStr
deriving DecidableEq, Repr

/-- Calls that `app.cpp` makes into other modules, as recorded in the trace. -/
inductive Call where
  | intl_init
  | core_init
  | file_system_init
  | ase_config_init
  | intl_load_lang
  | gfxobj_init
  | modules_init (requirements : Nat)
  | palette_load (filename : CStr)
  | set_default_palette (pal : Palette)
  | palette_free (pal : Palette)
  | set_current_palette (pal : Option Palette) (forced : Bool)
  | on_event (hook : IAppHook)
  | delete_hook (hook : IAppHook)
  | modules_exit
  | delete_pimpl
  | editor_cursor_exit
  | boundary_exit
  | gfxobj_exit
  | ase_config_exit
  | file_system_exit
  | core_exit
  | intl_exit
deriving DecidableEq, Repr

/-- Configuration store: section and key to integer value. -/
abbrev Config := String → String → Option Int

/-- Modelled from the spec: `set_config_int` of `core/cfg` is not under `src/`;
it stores `value` under `section`/`name` and touches no other entry. -/
def set_config_int (sect name : String) (value : Int) (cfg : Config) : Config :=
  fun s n => if s = sect ∧ n = name then some value else cfg s n

/-- Program state seen by `app.cpp`: the globals `ase_mode` and
`palette_filename`, the configuration, the trace of external calls, and the
members of `App::Pimpl`. -/
structure World where
  ase_mode : Nat
  palette_filename : Option CStr
  config : Config
  trace : List Call
  m_exe_name : Option CStr
  m_options : List Option_
  m_return_code : Int
  m_apphooks : List (List IAppHook)

/-- Record one external call. -/
def call (c : Call) (w : World) : World :=
  { w with trace := w.trace ++ [c] }

/-! ## C library pieces used by `check_args` -/

/-- Loop `for (n=0; arg[n] == '-'; n++);` of `check_args`. -/
def count_dashes : CStr → Nat
  | [] => 0
  | c :: rest => if c = '-' then count_dashes rest + 1 else 0

/-- Library `strlen`. -/
def strlen (s : CStr) : Nat := s.length

/-- Library `strncmp`: compares at most `n` characters, stopping at the
terminating NUL; the result is `0`, negative or positive. -/
def strncmp : CStr → CStr → Nat → Int
  | _, _, 0 => 0
  | [], [], _ + 1 => 0
  | [], _ :: _, _ + 1 => -1
  | _ :: _, [], _ + 1 => 1
  | a :: s, b :: t, n + 1 =>
    if a = b then strncmp s t n else if a.toNat < b.toNat then -1 else 1

/-- Modelled from the spec: `ustrtok` is the Allegro library's `strtok`, not
under `src/`.  Called with a string it starts there, called with `NULL`
(`none`) it continues from `last`; it skips leading delimiters, returns the
run of characters up to the next delimiter (or `NULL` when nothing is left),
and remembers in `last` where to continue.  Returns the token and the new
`last`. -/
def ustrtok (s : Option CStr) (set : CStr) (last : Option CStr) : Option CStr × Option CStr :=
  match s.orElse (fun _ => last) with
  | none => (none, none)
  | some str =>
    match str.dropWhile (fun ch => decide (ch ∈ set)) with
    | [] => (none, none)
    | c :: rest =>
      let tok := (c :: rest).takeWhile (fun ch => !decide (ch ∈ set))
      match (c :: rest).dropWhile (fun ch => !decide (ch ∈ set)) with
      | [] => (some tok, none)
      | _ :: after => (some tok, some after)

/-! ## `App::usage` and `App::check_args` -/

/-- Method `App::usage` (lines 666-713), without the console output. -/
def App.usage (E : Env) (show_help : Bool) (w : World) : World :=
  let w1 := { w with ase_mode := w.ase_mode ||| E.MODE_BATCH }
  if !show_help then { w1 with m_return_code := 1 } else w1

/-- Locals `c`, `num1`, `num2`, `num3` of the resolution branch. -/
structure ResNums where
  c : Nat
  num1 : Int
  num2 : Int
  num3 : Int
deriving DecidableEq, Repr

/-- Body of the token loop (lines 611-616): the `switch (c)` and `c++`. -/
def resolution_tok (E : Env) (tok : CStr) (r : ResNums) : ResNums :=
  let r1 : ResNums :=
    match r.c with
    | 0 => { r with num1 := E.ustrtol tok }
    | 1 => { r with num2 := E.ustrtol tok }
    | 2 => { r with num3 := E.ustrtol tok }
    | _ => r
  { r1 with c := r1.c + 1 }

/-- Loop `for (tok=ustrtok(argv[i], "x"); tok; tok=ustrtok(NULL, "x"))`
(lines 609-617), from the current token on; `fuel` bounds the iterations. -/
def resolution_scan (E : Env) : Nat → Option CStr → Option CStr → ResNums → ResNums
  | 0, _, _, r => r
  | _ + 1, none, _, r => r
  | fuel + 1, some tok, last, r =>
    let nxt := ustrtok none ['x'] last
    resolution_scan E fuel nxt.1 nxt.2 (resolution_tok E tok r)

/-- Lines 602-630: tokenise the value of the resolution option and store the
numbers in the configuration. -/
def resolution_value (E : Env) (value : CStr) (cfg : Config) : Config :=
  let first := ustrtok (some value) ['x'] none
  let r := resolution_scan E (value.length + 1) first.1 first.2 ⟨0, 0, 0, 0⟩
  match r.c with
  | 1 => set_config_int "GfxMode" "Depth" r.num1 cfg
  | 2 => set_config_int "GfxMode" "Height" r.num2 (set_config_int "GfxMode" "Width" r.num1 cfg)
  | 3 =>
    set_config_int "GfxMode" "Depth" r.num3
      (set_config_int "GfxMode" "Height" r.num2 (set_config_int "GfxMode" "Width" r.num1 cfg))
  | _ => cfg

/-- One iteration of the loop of `check_args` (lines 585-659) at index `i`:
returns the value of `i` at the end of the body (before the loop's `i++`) and
the new state. -/
def App.check_args_body (E : Env) (argv : List CStr) (i : Nat) (w : World) : Nat × World :=
  let argc := argv.length
  let arg := argv.getD i []
  let n := count_dashes arg
  let len := strlen (arg.drop n)
  if n > 0 ∧ len > 0 then
    if strncmp (arg.drop n) "palette".toList len = 0 then
      if i + 1 < argc then
        (i + 1, { w with palette_filename := some (argv.getD (i + 1) []) })
      else
        (i + 1, App.usage E false w)
    else if strncmp (arg.drop n) "resolution".toList len = 0 then
      if i + 1 < argc then
        (i + 1, { w with config := resolution_value E (argv.getD (i + 1) []) w.config })
      else
        (i + 1, App.usage E false w)
    else if strncmp (arg.drop n) "verbose".toList len = 0 then
      (i, { w with ase_mode := w.ase_mode ||| E.MODE_VERBOSE })
    else if strncmp (arg.drop n) "help".toList len = 0 then
      (i, App.usage E true w)
    else if strncmp (arg.drop n) "version".toList len = 0 then
      (i, { w with ase_mode := w.ase_mode ||| E.MODE_BATCH })
    else
      (i, App.usage E false w)
  else if n = 0 then
    (i, { w with m_options := w.m_options ++ [Option_.mk Option_.OpenSprite arg] })
  else
    (i, w)

/-- Loop `for (i=1; i<argc; i++)` of `check_args`, from index `i`; `fuel`
bounds the iterations. -/
def App.check_args_loop (E : Env) (argv : List CStr) : Nat → Nat → World → World
  | 0, _, w => w
  | fuel + 1, i, w =>
    if i < argv.length then
      let r := App.check_args_body E argv i w
      App.check_args_loop E argv fuel (r.1 + 1) r.2
    else w

/-- Method `App::check_args` (lines 578-661); `argc` is the length of `argv`. -/
def App.check_args (E : Env) (argv : List CStr) (w : World) : World :=
  App.check_args_loop E argv argv.length 1 w

/-! ## Hooks -/

/-- Method `App::add_hook` (lines 394-399); `none` when the assertion on
`event` fails. -/
def App.add_hook (E : Env) (event : Nat) (hook : IAppHook) (w : World) : Option World :=
  if event < E.NumEvents then
    some { w with m_apphooks := w.m_apphooks.modify (fun l => l ++ [hook]) event }
  else none

/-- Method `App::trigger_event` (lines 401-411); `none` when the assertion on
`event` fails. -/
def App.trigger_event (E : Env) (event : Nat) (w : World) : Option World :=
  if event < E.NumEvents then
    some ((w.m_apphooks.getD event []).foldl (fun acc apphook => call (Call.on_event apphook) acc) w)
  else none

/-! ## Constructor and destructor -/

/-- Lines 131-166 of the constructor `App::App`: the private data, the
initialisation of the subsystems, the arguments and the default mode. -/
def App.App_setup (E : Env) (argv : List CStr) (w0 : World) : World :=
  let w1 : World :=
    { w0 with
      m_exe_name := argv.head?
      m_options := []
      m_return_code := 0
      m_apphooks := List.replicate E.NumEvents [] }
  let w2 := call Call.intl_init w1
  let w3 := call Call.core_init w2
  let w4 := call Call.file_system_init w3
  let w5 := call Call.ase_config_init w4
  let w6 := call Call.intl_load_lang w5
  let w7 := App.check_args E argv w6
  let w8 : World :=
    if w7.ase_mode &&& E.MODE_BATCH = 0 then { w7 with ase_mode := w7.ase_mode ||| E.MODE_GUI }
    else w7
  let w9 := call Call.gfxobj_init w8
  call (Call.modules_init (if w9.ase_mode &&& E.MODE_GUI ≠ 0 then E.REQUIRE_INTERFACE else 0)) w9

/-- Constructor `App::App` (lines 129-185): the set-up, then the custom
default palette (lines 168-181) and the current palette (line 184).  A throw
carries the state at the throw: the globals and the trace outlive the failed
construction. -/
def App.App (E : Env) (argv : List CStr) (w0 : World) : Except (ase_exception × World) World :=
  let w10 := App.App_setup E argv w0
  match w10.palette_filename with
  | some filename =>
    let w11 := call (Call.palette_load filename) w10
    match E.palette_load filename with
    | none =>
      Except.error (⟨"Error loading default palette from: ".toList ++ filename⟩, w11)
    | some pal =>
      let w12 := call (Call.set_default_palette pal) w11
      let w13 := call (Call.palette_free pal) w12
      Except.ok (call (Call.set_current_palette none true) w13)
  | none => Except.ok (call (Call.set_current_palette none true) w10)

/-- State left by the constructor, whether it returned or threw. -/
def App.App_world (r : Except (ase_exception × World) World) : World :=
  match r with
  | Except.ok w => w
  | Except.error e => e.2

/-- Statement `delete apphook` (line 367).  `deleted` (the second component)
holds the pointers the destructor has deleted so far; deleting one of them
again is undefined behaviour, and the model stops there with `none`. -/
def App.delete_apphook (apphook : IAppHook) (s : World × List IAppHook) :
    Option (World × List IAppHook) :=
  if apphook ∈ s.2 then none
  else some (call (Call.delete_hook apphook) s.1, s.2 ++ [apphook])

/-- Inner loop of lines 363-368 of the destructor: delete each hook of one
list, front to back. -/
def App.delete_hooks : List IAppHook → World × List IAppHook → Option (World × List IAppHook)
  | [], s => some s
  | apphook :: rest, s =>
    match App.delete_apphook apphook s with
    | none => none
    | some s1 => App.delete_hooks rest s1

/-- Outer loop of lines 362-372 of the destructor over the events `cs`: for
every event `c`, delete each hook of `m_apphooks[c]` and clear that list. -/
def App.destroy_events : List Nat → World × List IAppHook → Option (World × List IAppHook)
  | [], s => some s
  | c :: cs, s =>
    match App.delete_hooks (s.1.m_apphooks.getD c []) s with
    | none => none
    | some s1 =>
      App.destroy_events cs ({ s1.1 with m_apphooks := s1.1.m_apphooks.set c [] }, s1.2)

/-- Loop of lines 362-372 of the destructor, `for (c=0; c<NumEvents; ++c)`,
starting with no pointer deleted; `none` when a pointer is deleted twice. -/
def App.destroy_hooks (E : Env) (w : World) : Option World :=
  (App.destroy_events (List.range E.NumEvents) (w, [])).map Prod.fst

/-- Lines 374-384 of the destructor: finalise modules, configuration and core. -/
def App.finalize (w : World) : World :=
  let w1 := call Call.modules_exit w
  let w2 := call Call.delete_pimpl w1
  let w3 := call Call.editor_cursor_exit w2
  let w4 := call Call.boundary_exit w3
  let w5 := call Call.gfxobj_exit w4
  let w6 := call Call.ase_config_exit w5
  let w7 := call Call.file_system_exit w6
  let w8 := call Call.core_exit w7
  call Call.intl_exit w8

/-- Destructor `App::~App` (lines 351-392); `none` when the assertion of
`trigger_event` fails or a hook pointer is deleted twice (the subsystems are
then not finalised).  The members of the deleted `Pimpl` are kept as they
were when it was deleted. -/
def App.dtor (E : Env) (w : World) : Option World :=
  match App.trigger_event E E.Exit w with
  | none => none
  | some w1 =>
    match App.destroy_hooks E w1 with
    | none => none
    | some w2 => some (App.finalize w2)

/-- Run a sequence of `add_hook` calls, each an event and a hook, in order. -/
def App.add_hooks (E : Env) : List (Nat × IAppHook) → World → Option World
  | [], w => some w
  | c :: rest, w =>
    match App.add_hook E c.1 c.2 w with
    | none => none
    | some w1 => App.add_hooks E rest w1

/-! ## The command-line grammar in words

The definitions below restate, on whole strings and whole argument lists, what
the usage text and the comments of `check_args` say; the theorems relate them
to the index loop above. -/

/-- What an argument is when `check_args` examines it. -/
inductive ArgKind where
  | file
  | dashes
  | palette
  | resolution
  | verbose
  | help
  | version
  | invalid
deriving DecidableEq, Repr

/-- Number of leading `'-'` characters of an argument. -/
def leading_dashes (a : CStr) : Nat := (a.takeWhile (fun ch => ch == '-')).length

/-- Name of an option: the argument without its leading dashes. -/
def option_name (a : CStr) : CStr := a.dropWhile (fun ch => ch == '-')

/-- A name matches an option when it is a prefix of its full name: options may
be abbreviated. -/
def names_option (name : CStr) (full : String) : Bool := name.isPrefixOf full.toList

/-- Kind of an argument: a file when it has no leading dash, nothing when it
is only dashes, otherwise the first option, in the order palette, resolution,
verbose, help, version, that its name matches, and invalid when none does. -/
def classify (a : CStr) : ArgKind :=
  if leading_dashes a = 0 then ArgKind.file
  else if option_name a = [] then ArgKind.dashes
  else if names_option (option_name a) "palette" then ArgKind.palette
  else if names_option (option_name a) "resolution" then ArgKind.resolution
  else if names_option (option_name a) "verbose" then ArgKind.verbose
  else if names_option (option_name a) "help" then ArgKind.help
  else if names_option (option_name a) "version" then ArgKind.version
  else ArgKind.invalid

/-- Palette and resolution options take the next argument as their value. -/
def takes_value (a : CStr) : Bool :=
  decide (classify a = ArgKind.palette) || decide (classify a = ArgKind.resolution)

/-- For each argument after `argv[0]`, whether it is consumed as the value of
a preceding palette or resolution option. -/
def consumed_flags : List CStr → List Bool
  | [] => []
  | [_] => [false]
  | a :: v :: rest =>
    if takes_value a then false :: true :: consumed_flags rest
    else false :: consumed_flags (v :: rest)

/-- The argument at position `i` is examined (not consumed as a value) and is
of kind `k`. -/
def parsed_as (args : List CStr) (i : Nat) (k : ArgKind) : Bool :=
  match args[i]?, (consumed_flags args)[i]? with
  | some a, some false => decide (classify a = k)
  | _, _ => false

/-- The arguments queued as files to open: those with no leading dash that
are not consumed as a value, in command-line order. -/
def queued_files (args : List CStr) : List CStr :=
  ((args.zip (consumed_flags args)).filter
    (fun p => !p.2 && decide (leading_dashes p.1 = 0))).map Prod.fst

/-- Some argument is parsed as an unrecognised option, or as a palette or
resolution option with no following value. -/
def usage_error (args : List CStr) : Prop :=
  ∃ i, parsed_as args i ArgKind.invalid = true ∨
    (i + 1 = args.length ∧
      (parsed_as args i ArgKind.palette = true ∨ parsed_as args i ArgKind.resolution = true))

/-- Some argument is parsed as help, as version, or as a usage error. -/
def batch_request (args : List CStr) : Prop :=
  (∃ i, parsed_as args i ArgKind.help = true ∨ parsed_as args i ArgKind.version = true) ∨
    usage_error args

/-- Position `i` holds a palette option whose value `v` is the next argument,
and no later palette option has a value. -/
def last_palette_value (args : List CStr) (i : Nat) (v : CStr) : Prop :=
  parsed_as args i ArgKind.palette = true ∧ args[i + 1]? = some v ∧
    ∀ j, i < j → parsed_as args j ArgKind.palette = true → j + 1 = args.length

/-- No palette option of the command line has a value. -/
def no_palette_value (args : List CStr) : Prop :=
  ∀ j, parsed_as args j ArgKind.palette = true → j + 1 = args.length

/-- The non-empty tokens of a resolution value split on `'x'`. -/
def tokens (value : CStr) : List CStr :=
  (value.splitOn 'x').filter (fun t => decide (t ≠ []))

/-- The six subsystems the constructor initialises. -/
inductive Subsystem where
  | intl
  | core
  | file_system
  | config
  | gfxobj
  | modules
deriving DecidableEq, Repr

/-- Subsystem that a call initialises, if any. -/
def init_of : Call → Option Subsystem
  | Call.intl_init => some Subsystem.intl
  | Call.core_init => some Subsystem.core
  | Call.file_system_init => some Subsystem.file_system
  | Call.ase_config_init => some Subsystem.config
  | Call.gfxobj_init => some Subsystem.gfxobj
  | Call.modules_init _ => some Subsystem.modules
  | _ => none

/-- Calls made since the state `w0`. -/
def calls_since (w0 w : World) : List Call := w.trace.drop w0.trace.length

/-! ## The loop of `check_args` as a recursion on the remaining arguments -/

/-- Effect on the state of examining argument `a` when `next` is the argument
after it (`none` when `a` is the last one). -/
def arg_effect (E : Env) (a : CStr) (next : Option CStr) (w : World) : World :=
  match classify a, next with
  | ArgKind.file, _ =>
    { w with m_options := w.m_options ++ [Option_.mk Option_.OpenSprite a] }
  | ArgKind.dashes, _ => w
  | ArgKind.palette, some v => { w with palette_filename := some v }
  | ArgKind.palette, none => App.usage E false w
  | ArgKind.resolution, some v => { w with config := resolution_value E v w.config }
  | ArgKind.resolution, none => App.usage E false w
  | ArgKind.verbose, _ => { w with ase_mode := w.ase_mode ||| E.MODE_VERBOSE }
  | ArgKind.help, _ => App.usage E true w
  | ArgKind.version, _ => { w with ase_mode := w.ase_mode ||| E.MODE_BATCH }
  | ArgKind.invalid, _ => App.usage E false w

/-- Effect of examining the arguments `args` from left to right, an option
that takes a value skipping the argument after it. -/
def run_args (E : Env) : List CStr → World → World
  | [], w => w
  | [a], w => arg_effect E a none w
  | a :: v :: rest, w =>
    if takes_value a then run_args E rest (arg_effect E a (some v) w)
    else run_args E (v :: rest) (arg_effect E a (some v) w)

/-- Some examined argument has a kind `k` with `Q k last`, where `last` tells
whether it is the last argument of the command line. -/
def some_parsed (Q : ArgKind → Bool → Prop) (args : List CStr) : Prop :=
  ∃ i k, parsed_as args i k = true ∧ Q k (decide (i + 1 = args.length))

/-- Fold of the token loop over a list of tokens. -/
def scan_tokens (E : Env) (toks : List CStr) (r : ResNums) : ResNums :=
  toks.foldl (fun acc tok => resolution_tok E tok acc) r

/-- Kinds that are a usage error: an unrecognised option, or a palette or
resolution option that is the last argument. -/
def usage_error_kind (k : ArgKind) (last : Bool) : Prop :=
  k = ArgKind.invalid ∨ (last = true ∧ (k = ArgKind.palette ∨ k = ArgKind.resolution))

/-- Kinds that ask for batch mode: help, version, or a usage error. -/
def batch_kind (k : ArgKind) (last : Bool) : Prop :=
  k = ArgKind.help ∨ k = ArgKind.version ∨ usage_error_kind k last

/-- The `Option` object that `check_args` queues for a file name. -/
def open_sprite (a : CStr) : Option_ := Option_.mk Option_.OpenSprite a

/-- Delimiter test of `ustrtok(_, "x")`: the character is in the set `"x"`. -/
def is_delim (ch : Char) : Bool := decide (ch ∈ ['x'])

/-- Tokens still to come from the saved position of `ustrtok`. -/
def tokens_from : Option CStr → List CStr
  | none => []
  | some s => tokens s

/-- Size of the saved position of `ustrtok`, bounding the calls still to come. -/
def last_size : Option CStr → Nat
  | none => 0
  | some s => s.length + 1

/-- Calls of the set-up part of the constructor, in order. -/
def setup_calls (req : Nat) : List Call :=
  [Call.intl_init, Call.core_init, Call.file_system_init, Call.ase_config_init,
    Call.intl_load_lang, Call.gfxobj_init, Call.modules_init req]

/-- Calls that finalise the subsystems in the destructor, in order. -/
def finalize_calls : List Call :=
  [Call.modules_exit, Call.delete_pimpl, Call.editor_cursor_exit, Call.boundary_exit,
    Call.gfxobj_exit, Call.ase_config_exit, Call.file_system_exit, Call.core_exit,
    Call.intl_exit]

/-- Hooks registered for event `e` by a sequence of `add_hook` calls, in the
order of registration. -/
def registered_for (calls : List (Nat × IAppHook)) (e : Nat) : List IAppHook :=
  (calls.filter (fun c => decide (c.1 = e))).map Prod.snd

/-! ## Concrete inputs -/

/-- Base-10 reading of the leading digits of a token. -/
def demo_ustrtol (s : CStr) : Int :=
  Int.ofNat ((s.takeWhile Char.isDigit).foldl (fun acc ch => acc * 10 + (ch.toNat - 48)) 0)

/-- An environment: mode flags 1, 2 and 4, two event types with `Exit` the
first, and a palette loader that knows one file. -/
def demo_env : Env :=
  { MODE_VERBOSE := 1
    MODE_BATCH := 2
    MODE_GUI := 4
    REQUIRE_INTERFACE := 1
    NumEvents := 2
    Exit := 0
    ustrtol := demo_ustrtol
    palette_load := fun f => if f = "ok.pal".toList then some 7 else none }

/-- A state at program start: no mode flag, no palette file name, an empty
configuration, no call made yet and no hook. -/
def demo_world : World :=
  { ase_mode := 0
    palette_filename := none
    config := fun _ _ => none
    trace := []
    m_exe_name := none
    m_options := []
    m_return_code := 0
    m_apphooks := [[], []] }

/-- A state whose registry holds hooks 7 and 9 for event 0 and hook 8 for
event 1. -/
def demo_hooked : World := { demo_world with m_apphooks := [[7, 9], [8]] }

/-- A state whose registry holds the same hook 7 for event 0 and for event 1,
as left by `add_hook(0, 7)` and `add_hook(1, 7)`. -/
def demo_shared : World := { demo_world with m_apphooks := [[7], [7]] }

/-- Three `add_hook` calls: hooks 7 and 9 for event 0, hook 8 for event 1. -/
def demo_calls : List (Nat × IAppHook) := [(0, 7), (1, 8), (0, 9)]

/-- Command line `ase a.png -resolution 320x240x8 -palette ok.pal`. -/
def demo_argv : List CStr :=
  ["ase".toList, "a.png".toList, "-resolution".toList, "320x240x8".toList,
    "-palette".toList, "ok.pal".toList]

/-- Command line `ase -p missing.pal`: an abbreviated palette option whose
file the loader of `demo_env` does not know. -/
def demo_argv_missing : List CStr := ["ase".toList, "-p".toList, "missing.pal".toList]

end Ase

namespace Ase

/-! ## Strings -/

theorem count_dashes_eq (a : CStr) : count_dashes a = leading_dashes a := by
  induction a with
  | nil => rfl
  | cons c rest ih =>
    by_cases h : c = '-'
    · simp [count_dashes, leading_dashes, List.takeWhile_cons, h] at ih ⊢
      exact ih
    · simp [count_dashes, leading_dashes, List.takeWhile_cons, h]

theorem drop_count_dashes (a : CStr) : a.drop (count_dashes a) = option_name a := by
  induction a with
  | nil => rfl
  | cons c rest ih =>
    by_cases h : c = '-'
    · simp [count_dashes, option_name, List.dropWhile_cons, h] at ih ⊢
      exact ih
    · simp [count_dashes, option_name, List.dropWhile_cons, h]

theorem drop_leading_dashes (a : CStr) : a.drop (leading_dashes a) = option_name a := by
  rw [← count_dashes_eq, drop_count_dashes]

theorem strncmp_length (s t : CStr) : strncmp s t s.length = 0 ↔ s.isPrefixOf t = true := by
  induction s generalizing t with
  | nil => simp [strncmp]
  | cons a s ih =>
    cases t with
    | nil => simp [strncmp, List.isPrefixOf]
    | cons b t =>
      by_cases h : a = b
      · simp [strncmp, List.isPrefixOf, h, ih]
      · by_cases h2 : a.toNat < b.toNat <;> simp [strncmp, List.isPrefixOf, h, h2]

/-! ## The index loop and the recursion on the remaining arguments -/

theorem option_name_length_pos (a : CStr) : 0 < (option_name a).length ↔ option_name a ≠ [] := by
  cases option_name a <;> simp

theorem arg_effect_file (E : Env) (a : CStr) (next : Option CStr) (w : World)
    (h : classify a = ArgKind.file) :
    arg_effect E a next w =
      { w with m_options := w.m_options ++ [Option_.mk Option_.OpenSprite a] } := by
  cases next <;> simp only [arg_effect, h]

theorem arg_effect_dashes (E : Env) (a : CStr) (next : Option CStr) (w : World)
    (h : classify a = ArgKind.dashes) : arg_effect E a next w = w := by
  cases next <;> simp only [arg_effect, h]

theorem arg_effect_verbose (E : Env) (a : CStr) (next : Option CStr) (w : World)
    (h : classify a = ArgKind.verbose) :
    arg_effect E a next w = { w with ase_mode := w.ase_mode ||| E.MODE_VERBOSE } := by
  cases next <;> simp only [arg_effect, h]

theorem arg_effect_help (E : Env) (a : CStr) (next : Option CStr) (w : World)
    (h : classify a = ArgKind.help) : arg_effect E a next w = App.usage E true w := by
  cases next <;> simp only [arg_effect, h]

theorem arg_effect_version (E : Env) (a : CStr) (next : Option CStr) (w : World)
    (h : classify a = ArgKind.version) :
    arg_effect E a next w = { w with ase_mode := w.ase_mode ||| E.MODE_BATCH } := by
  cases next <;> simp only [arg_effect, h]

theorem arg_effect_invalid (E : Env) (a : CStr) (next : Option CStr) (w : World)
    (h : classify a = ArgKind.invalid) : arg_effect E a next w = App.usage E false w := by
  cases next <;> simp only [arg_effect, h]

theorem arg_effect_palette_some (E : Env) (a v : CStr) (w : World)
    (h : classify a = ArgKind.palette) :
    arg_effect E a (some v) w = { w with palette_filename := some v } := by
  simp only [arg_effect, h]

theorem arg_effect_palette_none (E : Env) (a : CStr) (w : World)
    (h : classify a = ArgKind.palette) : arg_effect E a none w = App.usage E false w := by
  simp only [arg_effect, h]

theorem arg_effect_resolution_some (E : Env) (a v : CStr) (w : World)
    (h : classify a = ArgKind.resolution) :
    arg_effect E a (some v) w = { w with config := resolution_value E v w.config } := by
  simp only [arg_effect, h]

theorem arg_effect_resolution_none (E : Env) (a : CStr) (w : World)
    (h : classify a = ArgKind.resolution) : arg_effect E a none w = App.usage E false w := by
  simp only [arg_effect, h]

theorem takes_value_iff (a : CStr) :
    takes_value a = true ↔ classify a = ArgKind.palette ∨ classify a = ArgKind.resolution := by
  simp [takes_value]

theorem check_args_body_eq (E : Env) (argv : List CStr) (i : Nat) (w : World) :
    App.check_args_body E argv i w =
      (if takes_value (argv.getD i []) = true then i + 1 else i,
        arg_effect E (argv.getD i []) argv[i + 1]? w) := by
  unfold App.check_args_body
  simp only [strlen, count_dashes_eq, drop_leading_dashes, strncmp_length]
  generalize argv.getD i [] = arg
  have hnext : i + 1 < argv.length → argv[i + 1]? = some (argv.getD (i + 1) []) := by
    intro hi
    rw [List.getD_eq_getElem?_getD, List.getElem?_eq_getElem hi]
    simp
  have hnone : ¬ i + 1 < argv.length → argv[i + 1]? = none := fun hi =>
    List.getElem?_eq_none (Nat.le_of_not_lt hi)
  by_cases hn : leading_dashes arg = 0
  · have hc : classify arg = ArgKind.file := by simp only [classify, if_pos hn]
    have ht : ¬ takes_value arg = true := by rw [takes_value_iff, hc]; simp
    have hcond : ¬ (leading_dashes arg > 0 ∧ (option_name arg).length > 0) := by omega
    rw [if_neg hcond, if_pos hn, if_neg ht, arg_effect_file E arg _ w hc]
  · have hpos : leading_dashes arg > 0 := Nat.pos_of_ne_zero hn
    by_cases hl : option_name arg = []
    · have hc : classify arg = ArgKind.dashes := by simp only [classify, if_neg hn, if_pos hl]
      have ht : ¬ takes_value arg = true := by rw [takes_value_iff, hc]; simp
      have hcond : ¬ (leading_dashes arg > 0 ∧ (option_name arg).length > 0) := by
        rw [hl]; simp
      rw [if_neg hcond, if_neg hn, if_neg ht, arg_effect_dashes E arg _ w hc]
    · have hlen : (option_name arg).length > 0 := (option_name_length_pos arg).2 hl
      rw [if_pos (And.intro hpos hlen)]
      by_cases h1 : (option_name arg).isPrefixOf "palette".toList = true
      · have hc : classify arg = ArgKind.palette := by
          simp only [classify, names_option, if_neg hn, if_neg hl, if_pos h1]
        have ht : takes_value arg = true := by rw [takes_value_iff, hc]; simp
        rw [if_pos h1, if_pos ht]
        by_cases hi : i + 1 < argv.length
        · rw [if_pos hi, hnext hi, arg_effect_palette_some E arg _ w hc]
        · rw [if_neg hi, hnone hi, arg_effect_palette_none E arg w hc]
      · rw [if_neg h1]
        by_cases h2 : (option_name arg).isPrefixOf "resolution".toList = true
        · have hc : classify arg = ArgKind.resolution := by
            simp only [classify, names_option, if_neg hn, if_neg hl, if_neg h1, if_pos h2]
          have ht : takes_value arg = true := by rw [takes_value_iff, hc]; simp
          rw [if_pos h2, if_pos ht]
          by_cases hi : i + 1 < argv.length
          · rw [if_pos hi, hnext hi, arg_effect_resolution_some E arg _ w hc]
          · rw [if_neg hi, hnone hi, arg_effect_resolution_none E arg w hc]
        · rw [if_neg h2]
          by_cases h3 : (option_name arg).isPrefixOf "verbose".toList = true
          · have hc : classify arg = ArgKind.verbose := by
              simp only [classify, names_option, if_neg hn, if_neg hl, if_neg h1, if_neg h2,
                if_pos h3]
            have ht : ¬ takes_value arg = true := by rw [takes_value_iff, hc]; simp
            rw [if_pos h3, if_neg ht, arg_effect_verbose E arg _ w hc]
          · rw [if_neg h3]
            by_cases h4 : (option_name arg).isPrefixOf "help".toList = true
            · have hc : classify arg = ArgKind.help := by
                simp only [classify, names_option, if_neg hn, if_neg hl, if_neg h1, if_neg h2,
                  if_neg h3, if_pos h4]
              have ht : ¬ takes_value arg = true := by rw [takes_value_iff, hc]; simp
              rw [if_pos h4, if_neg ht, arg_effect_help E arg _ w hc]
            · rw [if_neg h4]
              by_cases h5 : (option_name arg).isPrefixOf "version".toList = true
              · have hc : classify arg = ArgKind.version := by
                  simp only [classify, names_option, if_neg hn, if_neg hl, if_neg h1, if_neg h2,
                    if_neg h3, if_neg h4, if_pos h5]
                have ht : ¬ takes_value arg = true := by rw [takes_value_iff, hc]; simp
                rw [if_pos h5, if_neg ht, arg_effect_version E arg _ w hc]
              · have hc : classify arg = ArgKind.invalid := by
                  simp only [classify, names_option, if_neg hn, if_neg hl, if_neg h1, if_neg h2,
                    if_neg h3, if_neg h4, if_neg h5]
                have ht : ¬ takes_value arg = true := by rw [takes_value_iff, hc]; simp
                rw [if_neg h5, if_neg ht, arg_effect_invalid E arg _ w hc]

theorem drop_eq_cons_getD (argv : List CStr) (i : Nat) (h : i < argv.length) :
    argv.drop i = argv.getD i [] :: argv.drop (i + 1) := by
  rw [List.getD_eq_getElem?_getD, List.getElem?_eq_getElem h]
  simp

theorem check_args_loop_eq (E : Env) (argv : List CStr) (fuel : Nat) :
    ∀ (i : Nat) (w : World), argv.length ≤ i + fuel →
      App.check_args_loop E argv fuel i w = run_args E (argv.drop i) w := by
  induction fuel with
  | zero =>
    intro i w h
    have hd : argv.drop i = [] := List.drop_eq_nil_of_le (by omega)
    simp [App.check_args_loop, hd, run_args]
  | succ fuel ih =>
    intro i w h
    by_cases hi : i < argv.length
    · rw [App.check_args_loop, if_pos hi]
      simp only [check_args_body_eq]
      rw [drop_eq_cons_getD argv i hi]
      by_cases hi1 : i + 1 < argv.length
      · rw [drop_eq_cons_getD argv (i + 1) hi1]
        have hv : argv[i + 1]? = some (argv.getD (i + 1) []) := by
          rw [List.getD_eq_getElem?_getD, List.getElem?_eq_getElem hi1]
          simp
        by_cases ht : takes_value (argv.getD i []) = true
        · rw [run_args, if_pos ht, if_pos ht, hv]
          exact ih (i + 1 + 1) _ (by omega)
        · rw [run_args, if_neg ht, if_neg ht, hv, ih (i + 1) _ (by omega),
            drop_eq_cons_getD argv (i + 1) hi1]
      · have hd : argv.drop (i + 1) = [] := List.drop_eq_nil_of_le (by omega)
        have hv : argv[i + 1]? = none := List.getElem?_eq_none (by omega)
        rw [hd, hv]
        simp only [run_args]
        rw [ih _ _ (by split <;> omega)]
        have hd2 : argv.drop ((if takes_value (argv.getD i []) = true then i + 1 else i) + 1) = [] :=
          List.drop_eq_nil_of_le (by split <;> omega)
        rw [hd2]
        simp [run_args]
    · have hd : argv.drop i = [] := List.drop_eq_nil_of_le (by omega)
      simp [App.check_args_loop, hi, hd, run_args]

theorem check_args_eq (E : Env) (argv : List CStr) (w : World) :
    App.check_args E argv w = run_args E argv.tail w := by
  unfold App.check_args
  rw [check_args_loop_eq E argv argv.length 1 w (by omega)]
  simp

/-! ## Examined and consumed positions -/

theorem args_induction {P : List CStr → Prop} (hnil : P []) (hsingle : ∀ a, P [a])
    (hvalue : ∀ a v rest, takes_value a = true → P rest → P (a :: v :: rest))
    (hplain : ∀ a v rest, ¬ takes_value a = true → P (v :: rest) → P (a :: v :: rest)) :
    ∀ l, P l := by
  have key : ∀ (n : Nat) (l : List CStr), l.length ≤ n → P l := by
    intro n
    induction n with
    | zero =>
      intro l hl
      match l, hl with
      | [], _ => exact hnil
    | succ n ih =>
      intro l hl
      match l, hl with
      | [], _ => exact hnil
      | [a], _ => exact hsingle a
      | a :: v :: rest, hl =>
        simp only [List.length_cons] at hl
        by_cases ht : takes_value a = true
        · exact hvalue a v rest ht (ih rest (by omega))
        · exact hplain a v rest ht (ih (v :: rest) (by simp only [List.length_cons]; omega))
  exact fun l => key l.length l (Nat.le_refl _)

theorem consumed_flags_value (a v : CStr) (rest : List CStr) (h : takes_value a = true) :
    consumed_flags (a :: v :: rest) = false :: true :: consumed_flags rest := by
  rw [consumed_flags, if_pos h]

theorem consumed_flags_plain (a v : CStr) (rest : List CStr) (h : ¬ takes_value a = true) :
    consumed_flags (a :: v :: rest) = false :: consumed_flags (v :: rest) := by
  rw [consumed_flags, if_neg h]

theorem consumed_flags_length : ∀ l : List CStr, (consumed_flags l).length = l.length := by
  apply args_induction
  · rfl
  · intro a; rfl
  · intro a v rest h ih
    simp [consumed_flags_value a v rest h, ih]
  · intro a v rest h ih
    simp [consumed_flags_plain a v rest h, ih]

theorem parsed_as_nil (i : Nat) (k : ArgKind) : parsed_as [] i k = false := by
  simp [parsed_as]

theorem parsed_as_zero (a : CStr) (rest : List CStr) (k : ArgKind) :
    parsed_as (a :: rest) 0 k = decide (classify a = k) := by
  cases rest with
  | nil => simp [parsed_as, consumed_flags]
  | cons v rest =>
    by_cases h : takes_value a = true
    · simp [parsed_as, consumed_flags_value a v rest h]
    · simp [parsed_as, consumed_flags_plain a v rest h]

theorem parsed_as_single_succ (a : CStr) (i : Nat) (k : ArgKind) :
    parsed_as [a] (i + 1) k = false := by
  simp [parsed_as]

theorem parsed_as_value_one (a v : CStr) (rest : List CStr) (k : ArgKind)
    (h : takes_value a = true) : parsed_as (a :: v :: rest) 1 k = false := by
  simp [parsed_as, consumed_flags_value a v rest h]

theorem parsed_as_value_add_two (a v : CStr) (rest : List CStr) (i : Nat) (k : ArgKind)
    (h : takes_value a = true) :
    parsed_as (a :: v :: rest) (i + 2) k = parsed_as rest i k := by
  simp [parsed_as, consumed_flags_value a v rest h]

theorem parsed_as_plain_succ (a v : CStr) (rest : List CStr) (i : Nat) (k : ArgKind)
    (h : ¬ takes_value a = true) :
    parsed_as (a :: v :: rest) (i + 1) k = parsed_as (v :: rest) i k := by
  simp [parsed_as, consumed_flags_plain a v rest h]

theorem some_parsed_nil (Q : ArgKind → Bool → Prop) : ¬ some_parsed Q [] := by
  rintro ⟨i, k, h, _⟩
  simp [parsed_as_nil] at h

theorem some_parsed_single (Q : ArgKind → Bool → Prop) (a : CStr) :
    some_parsed Q [a] ↔ Q (classify a) true := by
  constructor
  · rintro ⟨i, k, h, hq⟩
    cases i with
    | zero =>
      rw [parsed_as_zero] at h
      have hk : classify a = k := of_decide_eq_true h
      simpa [hk] using hq
    | succ i => simp [parsed_as_single_succ] at h
  · intro hq
    refine ⟨0, classify a, ?_, ?_⟩
    · simp [parsed_as_zero]
    · simpa using hq

theorem some_parsed_value (Q : ArgKind → Bool → Prop) (a v : CStr) (rest : List CStr)
    (h : takes_value a = true) :
    some_parsed Q (a :: v :: rest) ↔ Q (classify a) false ∨ some_parsed Q rest := by
  constructor
  · rintro ⟨i, k, hp, hq⟩
    match i with
    | 0 =>
      rw [parsed_as_zero] at hp
      have hk : classify a = k := of_decide_eq_true hp
      left
      simpa [hk] using hq
    | 1 => simp [parsed_as_value_one a v rest k h] at hp
    | i + 2 =>
      rw [parsed_as_value_add_two a v rest i k h] at hp
      right
      refine ⟨i, k, hp, ?_⟩
      simpa using hq
  · rintro (hq | ⟨i, k, hp, hq⟩)
    · refine ⟨0, classify a, ?_, ?_⟩
      · simp [parsed_as_zero]
      · simpa using hq
    · refine ⟨i + 2, k, ?_, ?_⟩
      · rw [parsed_as_value_add_two a v rest i k h]; exact hp
      · simpa using hq

theorem some_parsed_plain (Q : ArgKind → Bool → Prop) (a v : CStr) (rest : List CStr)
    (h : ¬ takes_value a = true) :
    some_parsed Q (a :: v :: rest) ↔ Q (classify a) false ∨ some_parsed Q (v :: rest) := by
  constructor
  · rintro ⟨i, k, hp, hq⟩
    match i with
    | 0 =>
      rw [parsed_as_zero] at hp
      have hk : classify a = k := of_decide_eq_true hp
      left
      simpa [hk] using hq
    | i + 1 =>
      rw [parsed_as_plain_succ a v rest i k h] at hp
      right
      refine ⟨i, k, hp, ?_⟩
      simpa using hq
  · rintro (hq | ⟨i, k, hp, hq⟩)
    · refine ⟨0, classify a, ?_, ?_⟩
      · simp [parsed_as_zero]
      · simpa using hq
    · refine ⟨i + 1, k, ?_, ?_⟩
      · rw [parsed_as_plain_succ a v rest i k h]; exact hp
      · simpa using hq

/-! ## What `check_args` leaves untouched -/

theorem usage_frame (E : Env) (b : Bool) (w : World) :
    (App.usage E b w).trace = w.trace ∧ (App.usage E b w).m_apphooks = w.m_apphooks ∧
      (App.usage E b w).m_exe_name = w.m_exe_name ∧
      (App.usage E b w).m_options = w.m_options ∧
      (App.usage E b w).palette_filename = w.palette_filename ∧
      (App.usage E b w).config = w.config := by
  cases b <;> simp [App.usage]

theorem arg_effect_frame (E : Env) (a : CStr) (next : Option CStr) (w : World) :
    (arg_effect E a next w).trace = w.trace ∧
      (arg_effect E a next w).m_apphooks = w.m_apphooks ∧
      (arg_effect E a next w).m_exe_name = w.m_exe_name := by
  cases hc : classify a <;> cases next <;> simp [arg_effect, hc, usage_frame]

theorem run_args_frame (E : Env) : ∀ (args : List CStr) (w : World),
    (run_args E args w).trace = w.trace ∧ (run_args E args w).m_apphooks = w.m_apphooks ∧
      (run_args E args w).m_exe_name = w.m_exe_name := by
  apply args_induction
  · intro w; simp [run_args]
  · intro a w; simpa [run_args] using arg_effect_frame E a none w
  · intro a v rest h ih w
    rw [run_args, if_pos h]
    have h1 := ih (arg_effect E a (some v) w)
    have h2 := arg_effect_frame E a (some v) w
    exact ⟨h1.1.trans h2.1, h1.2.1.trans h2.2.1, h1.2.2.trans h2.2.2⟩
  · intro a v rest h ih w
    rw [run_args, if_neg h]
    have h1 := ih (arg_effect E a (some v) w)
    have h2 := arg_effect_frame E a (some v) w
    exact ⟨h1.1.trans h2.1, h1.2.1.trans h2.2.1, h1.2.2.trans h2.2.2⟩

/-! ## The queue of files -/

theorem classify_file_iff (a : CStr) : classify a = ArgKind.file ↔ leading_dashes a = 0 := by
  unfold classify
  constructor
  · intro h
    by_contra hn
    rw [if_neg hn] at h
    repeat' split at h
    all_goals simp at h
  · intro h
    rw [if_pos h]

theorem takes_value_dashes (a : CStr) (h : takes_value a = true) : ¬ leading_dashes a = 0 := by
  intro h0
  rw [takes_value_iff, (classify_file_iff a).2 h0] at h
  simp at h

theorem arg_effect_options (E : Env) (a : CStr) (next : Option CStr) (w : World) :
    (arg_effect E a next w).m_options =
      w.m_options ++ (if leading_dashes a = 0 then [open_sprite a] else []) := by
  by_cases h0 : leading_dashes a = 0
  · rw [arg_effect_file E a next w ((classify_file_iff a).2 h0), if_pos h0]
    rfl
  · have hc : classify a ≠ ArgKind.file := fun h => h0 ((classify_file_iff a).1 h)
    rw [if_neg h0]
    cases hk : classify a <;> cases next <;> simp [arg_effect, hk, usage_frame] <;>
      exact absurd hk hc

theorem queued_files_nil : queued_files [] = [] := rfl

theorem queued_files_single (a : CStr) :
    queued_files [a] = if leading_dashes a = 0 then [a] else [] := by
  by_cases h : leading_dashes a = 0 <;> simp [queued_files, consumed_flags, h]

theorem queued_files_value (a v : CStr) (rest : List CStr) (h : takes_value a = true) :
    queued_files (a :: v :: rest) = queued_files rest := by
  simp [queued_files, consumed_flags_value a v rest h, takes_value_dashes a h]

theorem queued_files_plain (a v : CStr) (rest : List CStr) (h : ¬ takes_value a = true) :
    queued_files (a :: v :: rest) =
      (if leading_dashes a = 0 then [a] else []) ++ queued_files (v :: rest) := by
  by_cases h0 : leading_dashes a = 0 <;>
    simp [queued_files, consumed_flags_plain a v rest h, h0]

theorem run_args_options (E : Env) : ∀ (args : List CStr) (w : World),
    (run_args E args w).m_options = w.m_options ++ (queued_files args).map open_sprite := by
  apply args_induction
  · intro w; simp [run_args, queued_files_nil]
  · intro a w
    rw [run_args, arg_effect_options, queued_files_single]
    by_cases h0 : leading_dashes a = 0 <;> simp [h0]
  · intro a v rest h ih w
    rw [run_args, if_pos h, ih, arg_effect_options, queued_files_value a v rest h,
      if_neg (takes_value_dashes a h)]
    simp
  · intro a v rest h ih w
    rw [run_args, if_neg h, ih, arg_effect_options, queued_files_plain a v rest h]
    by_cases h0 : leading_dashes a = 0 <;> simp [h0]

theorem queued_files_sublist (args : List CStr) : List.Sublist (queued_files args) args := by
  unfold queued_files
  have h1 : List.Sublist
      (((args.zip (consumed_flags args)).filter
        (fun p => !p.2 && decide (leading_dashes p.1 = 0))).map Prod.fst)
      ((args.zip (consumed_flags args)).map Prod.fst) :=
    List.Sublist.map _ (List.filter_sublist _)
  rw [List.map_fst_zip _ _ (by rw [consumed_flags_length])] at h1
  exact h1

/-! ## The return code -/

theorem usage_error_iff (args : List CStr) :
    usage_error args ↔ some_parsed usage_error_kind args := by
  constructor
  · rintro ⟨i, h | ⟨hl, h | h⟩⟩
    · exact ⟨i, ArgKind.invalid, h, Or.inl rfl⟩
    · exact ⟨i, ArgKind.palette, h, Or.inr ⟨by simp [hl], Or.inl rfl⟩⟩
    · exact ⟨i, ArgKind.resolution, h, Or.inr ⟨by simp [hl], Or.inr rfl⟩⟩
  · rintro ⟨i, k, hp, hk | ⟨hl, hk | hk⟩⟩
    · subst hk; exact ⟨i, Or.inl hp⟩
    · subst hk; exact ⟨i, Or.inr ⟨of_decide_eq_true hl, Or.inl hp⟩⟩
    · subst hk; exact ⟨i, Or.inr ⟨of_decide_eq_true hl, Or.inr hp⟩⟩

theorem arg_effect_code_error (E : Env) (a : CStr) (next : Option CStr) (w : World)
    (h : usage_error_kind (classify a) next.isNone) :
    (arg_effect E a next w).m_return_code = 1 := by
  cases hc : classify a <;> cases next <;>
    simp [arg_effect, hc, App.usage, usage_error_kind] at h ⊢

theorem arg_effect_code_keep (E : Env) (a : CStr) (next : Option CStr) (w : World)
    (h : ¬ usage_error_kind (classify a) next.isNone) :
    (arg_effect E a next w).m_return_code = w.m_return_code := by
  cases hc : classify a <;> cases next <;>
    simp [arg_effect, hc, App.usage, usage_error_kind] at h ⊢

theorem run_args_code (E : Env) : ∀ (args : List CStr) (w : World),
    (some_parsed usage_error_kind args → (run_args E args w).m_return_code = 1) ∧
      (¬ some_parsed usage_error_kind args →
        (run_args E args w).m_return_code = w.m_return_code) := by
  apply args_induction
  · intro w
    exact ⟨fun h => absurd h (some_parsed_nil _), fun _ => by simp [run_args]⟩
  · intro a w
    rw [some_parsed_single, run_args]
    exact ⟨fun h => arg_effect_code_error E a none w (by simpa using h),
      fun h => arg_effect_code_keep E a none w (by simpa using h)⟩
  · intro a v rest ht ih w
    rw [some_parsed_value _ a v rest ht, run_args, if_pos ht]
    have ih1 := ih (arg_effect E a (some v) w)
    constructor
    · intro h
      by_cases hr : some_parsed usage_error_kind rest
      · exact ih1.1 hr
      · rw [ih1.2 hr]
        rcases h with h | h
        · exact arg_effect_code_error E a (some v) w (by simpa using h)
        · exact absurd h hr
    · intro h
      rw [ih1.2 (fun hr => h (Or.inr hr))]
      exact arg_effect_code_keep E a (some v) w (by simpa using fun hq => h (Or.inl hq))
  · intro a v rest ht ih w
    rw [some_parsed_plain _ a v rest ht, run_args, if_neg ht]
    have ih1 := ih (arg_effect E a (some v) w)
    constructor
    · intro h
      by_cases hr : some_parsed usage_error_kind (v :: rest)
      · exact ih1.1 hr
      · rw [ih1.2 hr]
        rcases h with h | h
        · exact arg_effect_code_error E a (some v) w (by simpa using h)
        · exact absurd h hr
    · intro h
      rw [ih1.2 (fun hr => h (Or.inr hr))]
      exact arg_effect_code_keep E a (some v) w (by simpa using fun hq => h (Or.inl hq))

/-! ## The mode word -/

theorem or_and_self (m b : Nat) : (m ||| b) &&& b = b := by
  apply Nat.eq_of_testBit_eq
  intro i
  simp only [Nat.testBit_and, Nat.testBit_or]
  cases m.testBit i <;> cases b.testBit i <;> rfl

theorem or_and_disjoint (m v b : Nat) (h : v &&& b = 0) : (m ||| v) &&& b = m &&& b := by
  rw [Nat.and_distrib_right, h, Nat.or_zero]

theorem batch_kind_iff (args : List CStr) :
    batch_request args ↔ some_parsed batch_kind args := by
  unfold batch_request
  rw [usage_error_iff]
  constructor
  · rintro (⟨i, h | h⟩ | ⟨i, k, hp, hk⟩)
    · exact ⟨i, ArgKind.help, h, Or.inl rfl⟩
    · exact ⟨i, ArgKind.version, h, Or.inr (Or.inl rfl)⟩
    · exact ⟨i, k, hp, Or.inr (Or.inr hk)⟩
  · rintro ⟨i, k, hp, hk | hk | hk⟩
    · subst hk; exact Or.inl ⟨i, Or.inl hp⟩
    · subst hk; exact Or.inl ⟨i, Or.inr hp⟩
    · exact Or.inr ⟨i, k, hp, hk⟩

theorem arg_effect_mode_batch (E : Env) (a : CStr) (next : Option CStr) (w : World)
    (h : batch_kind (classify a) next.isNone) :
    (arg_effect E a next w).ase_mode = w.ase_mode ||| E.MODE_BATCH := by
  cases hc : classify a <;> cases next <;>
    simp [arg_effect, hc, App.usage, batch_kind, usage_error_kind] at h ⊢

theorem arg_effect_mode_keep (E : Env) (a : CStr) (next : Option CStr) (w : World)
    (h : ¬ batch_kind (classify a) next.isNone) :
    (arg_effect E a next w).ase_mode = w.ase_mode ∨
      (arg_effect E a next w).ase_mode = w.ase_mode ||| E.MODE_VERBOSE := by
  cases hc : classify a <;> cases next <;>
    simp [arg_effect, hc, App.usage, batch_kind, usage_error_kind] at h ⊢

theorem arg_effect_mode (E : Env) (hB : E.MODE_BATCH ≠ 0)
    (hVB : E.MODE_VERBOSE &&& E.MODE_BATCH = 0) (hVG : E.MODE_VERBOSE &&& E.MODE_GUI = 0)
    (hBG : E.MODE_BATCH &&& E.MODE_GUI = 0) (a : CStr) (next : Option CStr) (w : World) :
    ((arg_effect E a next w).ase_mode &&& E.MODE_BATCH ≠ 0 ↔
        (w.ase_mode &&& E.MODE_BATCH ≠ 0 ∨ batch_kind (classify a) next.isNone)) ∧
      (arg_effect E a next w).ase_mode &&& E.MODE_GUI = w.ase_mode &&& E.MODE_GUI := by
  by_cases hk : batch_kind (classify a) next.isNone
  · rw [arg_effect_mode_batch E a next w hk, or_and_self, or_and_disjoint _ _ _ hBG]
    exact ⟨⟨fun _ => Or.inr hk, fun _ => hB⟩, rfl⟩
  · rcases arg_effect_mode_keep E a next w hk with h | h
    · rw [h]
      exact ⟨⟨fun h1 => Or.inl h1, fun h1 => h1.resolve_right hk⟩, rfl⟩
    · rw [h, or_and_disjoint _ _ _ hVB, or_and_disjoint _ _ _ hVG]
      exact ⟨⟨fun h1 => Or.inl h1, fun h1 => h1.resolve_right hk⟩, rfl⟩

theorem run_args_mode (E : Env) (hB : E.MODE_BATCH ≠ 0)
    (hVB : E.MODE_VERBOSE &&& E.MODE_BATCH = 0) (hVG : E.MODE_VERBOSE &&& E.MODE_GUI = 0)
    (hBG : E.MODE_BATCH &&& E.MODE_GUI = 0) : ∀ (args : List CStr) (w : World),
    ((run_args E args w).ase_mode &&& E.MODE_BATCH ≠ 0 ↔
        (w.ase_mode &&& E.MODE_BATCH ≠ 0 ∨ some_parsed batch_kind args)) ∧
      (run_args E args w).ase_mode &&& E.MODE_GUI = w.ase_mode &&& E.MODE_GUI := by
  apply args_induction
  · intro w
    simp [run_args, some_parsed_nil]
  · intro a w
    rw [some_parsed_single, run_args]
    simpa using arg_effect_mode E hB hVB hVG hBG a none w
  · intro a v rest ht ih w
    rw [some_parsed_value _ a v rest ht, run_args, if_pos ht]
    have ih1 := ih (arg_effect E a (some v) w)
    have h2 := arg_effect_mode E hB hVB hVG hBG a (some v) w
    simp only [Option.isNone_some] at h2
    refine ⟨?_, ih1.2.trans h2.2⟩
    rw [ih1.1, h2.1]
    tauto
  · intro a v rest ht ih w
    rw [some_parsed_plain _ a v rest ht, run_args, if_neg ht]
    have ih1 := ih (arg_effect E a (some v) w)
    have h2 := arg_effect_mode E hB hVB hVG hBG a (some v) w
    simp only [Option.isNone_some] at h2
    refine ⟨?_, ih1.2.trans h2.2⟩
    rw [ih1.1, h2.1]
    tauto

/-! ## The palette file name -/

theorem arg_effect_palette_keep (E : Env) (a : CStr) (next : Option CStr) (w : World)
    (h : classify a ≠ ArgKind.palette ∨ next = none) :
    (arg_effect E a next w).palette_filename = w.palette_filename := by
  cases hc : classify a <;> cases next <;>
    simp [arg_effect, hc, usage_frame] at h ⊢

theorem run_args_palette (E : Env) : ∀ (args : List CStr) (w : World),
    (∀ i v, last_palette_value args i v → (run_args E args w).palette_filename = some v) ∧
      (no_palette_value args → (run_args E args w).palette_filename = w.palette_filename) := by
  apply args_induction
  · intro w
    refine ⟨?_, fun _ => by simp [run_args]⟩
    rintro i v ⟨hp, _, _⟩
    simp [parsed_as_nil] at hp
  · intro a w
    refine ⟨?_, fun _ => ?_⟩
    · rintro i v ⟨_, h2, _⟩
      simp at h2
    · rw [run_args]
      exact arg_effect_palette_keep E a none w (Or.inr rfl)
  · intro a v rest ht ih w
    rw [run_args, if_pos ht]
    have ih1 := ih (arg_effect E a (some v) w)
    constructor
    · rintro i u ⟨hp, h2, h3⟩
      match i with
      | 0 =>
        rw [parsed_as_zero] at hp
        have hk : classify a = ArgKind.palette := of_decide_eq_true hp
        have hu : v = u := by simpa using h2
        have hno : no_palette_value rest := by
          intro j hj
          have := h3 (j + 2) (by omega) (by rw [parsed_as_value_add_two a v rest j _ ht]; exact hj)
          simp only [List.length_cons] at this
          omega
        rw [ih1.2 hno, arg_effect_palette_some E a v w hk, hu]
      | 1 => simp [parsed_as_value_one a v rest _ ht] at hp
      | i + 2 =>
        rw [parsed_as_value_add_two a v rest i _ ht] at hp
        apply ih1.1 i u
        refine ⟨hp, by simpa using h2, ?_⟩
        intro j hij hj
        have := h3 (j + 2) (by omega) (by rw [parsed_as_value_add_two a v rest j _ ht]; exact hj)
        simp only [List.length_cons] at this
        omega
    · intro hno
      have hk : classify a ≠ ArgKind.palette := by
        intro hk
        have := hno 0 (by rw [parsed_as_zero]; exact decide_eq_true hk)
        simp at this
      have hrest : no_palette_value rest := by
        intro j hj
        have := hno (j + 2) (by rw [parsed_as_value_add_two a v rest j _ ht]; exact hj)
        simp only [List.length_cons] at this
        omega
      rw [ih1.2 hrest]
      exact arg_effect_palette_keep E a (some v) w (Or.inl hk)
  · intro a v rest ht ih w
    rw [run_args, if_neg ht]
    have ih1 := ih (arg_effect E a (some v) w)
    have hk : classify a ≠ ArgKind.palette := fun hk => ht ((takes_value_iff a).2 (Or.inl hk))
    constructor
    · rintro i u ⟨hp, h2, h3⟩
      match i with
      | 0 =>
        rw [parsed_as_zero] at hp
        exact absurd (of_decide_eq_true hp) hk
      | i + 1 =>
        rw [parsed_as_plain_succ a v rest i _ ht] at hp
        apply ih1.1 i u
        refine ⟨hp, by simpa using h2, ?_⟩
        intro j hij hj
        have := h3 (j + 1) (by omega) (by rw [parsed_as_plain_succ a v rest j _ ht]; exact hj)
        simp only [List.length_cons] at this ⊢
        omega
    · intro hno
      have hrest : no_palette_value (v :: rest) := by
        intro j hj
        have := hno (j + 1) (by rw [parsed_as_plain_succ a v rest j _ ht]; exact hj)
        simp only [List.length_cons] at this ⊢
        omega
      rw [ih1.2 hrest]
      exact arg_effect_palette_keep E a (some v) w (Or.inl hk)

/-! ## Tokens of a resolution value -/

theorem splitOnP_unfold (p : Char → Bool) (s : CStr) :
    s.splitOnP p = s.takeWhile (fun ch => !p ch) ::
      (match s.dropWhile (fun ch => !p ch) with
        | [] => []
        | _ :: r => r.splitOnP p) := by
  induction s with
  | nil => simp
  | cons c t ih =>
    rw [List.splitOnP_cons]
    by_cases hc : p c = true
    · simp [hc, List.takeWhile_cons, List.dropWhile_cons]
    · simp only [hc, if_false, List.takeWhile_cons, List.dropWhile_cons, Bool.not_eq_true,
        Bool.not_false, Bool.not_true, if_true]
      simp only [Bool.not_eq_true] at hc
      rw [ih]
      simp [hc, List.modifyHead]

theorem tokens_unfold (s : CStr) :
    tokens s =
      (if s.takeWhile (fun ch => !is_delim ch) = [] then []
        else [s.takeWhile (fun ch => !is_delim ch)]) ++
      (match s.dropWhile (fun ch => !is_delim ch) with
        | [] => []
        | _ :: r => tokens r) := by
  have hp : (fun ch : Char => !(ch == 'x')) = (fun ch => !is_delim ch) := by
    funext ch
    by_cases h : ch = 'x' <;> simp [is_delim, h]
  unfold tokens List.splitOn
  rw [splitOnP_unfold, hp]
  cases s.dropWhile (fun ch => !is_delim ch) with
  | nil =>
    by_cases h : s.takeWhile (fun ch => !is_delim ch) = [] <;> simp [h, List.filter_cons]
  | cons d r =>
    by_cases h : s.takeWhile (fun ch => !is_delim ch) = [] <;> simp [h, List.filter_cons]

theorem dropWhile_cons_head (p : Char → Bool) : ∀ (l : CStr) (c : Char) (rest : CStr),
    l.dropWhile p = c :: rest → p c = false ∧ rest.length + 1 ≤ l.length := by
  intro l
  induction l with
  | nil => intro c rest h; simp at h
  | cons a t ih =>
    intro c rest h
    rw [List.dropWhile_cons] at h
    by_cases ha : p a = true
    · rw [if_pos ha] at h
      have := ih c rest h
      exact ⟨this.1, by simp only [List.length_cons]; omega⟩
    · rw [if_neg ha] at h
      injection h with h1 h2
      subst h1; subst h2
      exact ⟨by simpa using ha, Nat.le_refl _⟩

theorem tokens_nil : tokens [] = [] := by
  simp [tokens]

theorem tokens_dropWhile (s : CStr) : tokens (s.dropWhile is_delim) = tokens s := by
  induction s with
  | nil => rfl
  | cons c t ih =>
    by_cases hc : is_delim c = true
    · rw [List.dropWhile_cons, if_pos hc, ih, tokens_unfold (c :: t)]
      simp [List.takeWhile_cons, List.dropWhile_cons, hc]
    · rw [List.dropWhile_cons, if_neg hc]

theorem ustrtok_none (set : CStr) : ustrtok none set none = (none, none) := rfl

theorem ustrtok_some_eq (s : CStr) : ustrtok (some s) ['x'] none = ustrtok none ['x'] (some s) := rfl

theorem ustrtok_x (s : CStr) :
    ustrtok none ['x'] (some s) =
      match s.dropWhile is_delim with
      | [] => (none, none)
      | c :: rest =>
        match (c :: rest).dropWhile (fun ch => !is_delim ch) with
        | [] => (some ((c :: rest).takeWhile (fun ch => !is_delim ch)), none)
        | _ :: after => (some ((c :: rest).takeWhile (fun ch => !is_delim ch)), some after) := rfl

theorem scan_tokens_nil (E : Env) (r : ResNums) : scan_tokens E [] r = r := rfl

theorem scan_tokens_cons (E : Env) (t : CStr) (ts : List CStr) (r : ResNums) :
    scan_tokens E (t :: ts) r = scan_tokens E ts (resolution_tok E t r) := rfl

theorem resolution_scan_none (E : Env) (fuel : Nat) (last : Option CStr) (r : ResNums) :
    resolution_scan E fuel none last r = r := by
  cases fuel <;> rfl

theorem resolution_scan_eq (E : Env) (fuel : Nat) :
    ∀ (o : Option CStr) (r : ResNums), last_size o ≤ fuel →
      resolution_scan E fuel (ustrtok none ['x'] o).1 (ustrtok none ['x'] o).2 r =
        scan_tokens E (tokens_from o) r := by
  induction fuel with
  | zero =>
    intro o r h
    cases o with
    | none => rfl
    | some s => simp [last_size] at h
  | succ fuel ih =>
    intro o r h
    cases o with
    | none => rfl
    | some s =>
      simp only [last_size] at h
      rw [ustrtok_x]
      simp only [tokens_from]
      rw [← tokens_dropWhile s]
      cases hs : s.dropWhile is_delim with
      | nil => simp [resolution_scan_none, tokens_nil, scan_tokens_nil]
      | cons c rest =>
        obtain ⟨hc, hlen⟩ := dropWhile_cons_head is_delim s c rest hs
        have htake : (c :: rest).takeWhile (fun ch => !is_delim ch) ≠ [] := by
          simp [List.takeWhile_cons, hc]
        rw [tokens_unfold (c :: rest), if_neg htake]
        cases hd : (c :: rest).dropWhile (fun ch => !is_delim ch) with
        | nil =>
          simp only [hd, List.singleton_append, scan_tokens_cons, resolution_scan]
          exact ih none _ (by simp [last_size])
        | cons d after =>
          simp only [hd, List.singleton_append, scan_tokens_cons, resolution_scan]
          have hd2 : rest.dropWhile (fun ch => !is_delim ch) = d :: after := by
            rw [List.dropWhile_cons] at hd
            simpa [hc] using hd
          have hlen2 := (dropWhile_cons_head _ rest d after hd2).2
          exact ih (some after) _ (by simp only [last_size]; omega)

theorem resolution_tok_count (E : Env) (t : CStr) (r : ResNums) :
    (resolution_tok E t r).c = r.c + 1 := by
  unfold resolution_tok
  split <;> rfl

theorem scan_tokens_count (E : Env) : ∀ (toks : List CStr) (r : ResNums),
    (scan_tokens E toks r).c = r.c + toks.length := by
  intro toks
  induction toks with
  | nil => intro r; rfl
  | cons t ts ih =>
    intro r
    rw [scan_tokens_cons, ih, resolution_tok_count]
    simp only [List.length_cons]
    omega

theorem resolution_value_eq (E : Env) (value : CStr) (cfg : Config) :
    resolution_value E value cfg =
      match (scan_tokens E (tokens value) ⟨0, 0, 0, 0⟩).c with
      | 1 => set_config_int "GfxMode" "Depth" (scan_tokens E (tokens value) ⟨0, 0, 0, 0⟩).num1 cfg
      | 2 =>
        set_config_int "GfxMode" "Height" (scan_tokens E (tokens value) ⟨0, 0, 0, 0⟩).num2
          (set_config_int "GfxMode" "Width" (scan_tokens E (tokens value) ⟨0, 0, 0, 0⟩).num1 cfg)
      | 3 =>
        set_config_int "GfxMode" "Depth" (scan_tokens E (tokens value) ⟨0, 0, 0, 0⟩).num3
          (set_config_int "GfxMode" "Height" (scan_tokens E (tokens value) ⟨0, 0, 0, 0⟩).num2
            (set_config_int "GfxMode" "Width" (scan_tokens E (tokens value) ⟨0, 0, 0, 0⟩).num1 cfg))
      | _ => cfg := by
  unfold resolution_value
  simp only [ustrtok_some_eq]
  rw [resolution_scan_eq E (value.length + 1) (some value) _ (by simp [last_size])]
  rfl

/-! ## Hooks -/

theorem foldl_call (f : IAppHook → Call) : ∀ (hooks : List IAppHook) (w : World),
    hooks.foldl (fun acc apphook => call (f apphook) acc) w =
      { w with trace := w.trace ++ hooks.map f } := by
  intro hooks
  induction hooks with
  | nil => intro w; simp
  | cons h t ih =>
    intro w
    rw [List.foldl_cons, ih]
    simp [call]

theorem trigger_event_eq (E : Env) (e : Nat) (w : World) (he : e < E.NumEvents) :
    App.trigger_event E e w =
      some { w with trace := w.trace ++ (w.m_apphooks.getD e []).map Call.on_event } := by
  rw [App.trigger_event, if_pos he, foldl_call]

theorem getD_modify_append (L : List (List IAppHook)) (n e : Nat) (h : IAppHook)
    (hn : n < L.length) :
    (L.modify (fun l => l ++ [h]) n).getD e [] =
      L.getD e [] ++ (if n = e then [h] else []) := by
  rw [List.getD_eq_getElem?_getD, List.getD_eq_getElem?_getD, List.getElem?_modify]
  by_cases hne : n = e
  · subst hne
    simp [List.getElem?_eq_getElem hn]
  · cases L[e]? <;> simp [hne]

theorem add_hooks_spec (E : Env) : ∀ (calls : List (Nat × IAppHook)) (w : World),
    w.m_apphooks.length = E.NumEvents → (∀ c ∈ calls, c.1 < E.NumEvents) →
      ∃ L : List (List IAppHook), App.add_hooks E calls w = some { w with m_apphooks := L } ∧
        L.length = E.NumEvents ∧
        ∀ e, L.getD e [] = w.m_apphooks.getD e [] ++ registered_for calls e := by
  intro calls
  induction calls with
  | nil =>
    intro w hl _
    exact ⟨w.m_apphooks, rfl, hl, fun e => by simp [registered_for]⟩
  | cons c rest ih =>
    intro w hl hc
    have hc1 : c.1 < E.NumEvents := hc c (List.mem_cons_self _ _)
    rw [App.add_hooks, App.add_hook, if_pos hc1]
    obtain ⟨L, h1, h3, h4⟩ :=
      ih { w with m_apphooks := w.m_apphooks.modify (fun l => l ++ [c.2]) c.1 }
        (by simp [hl]) (fun d hd => hc d (List.mem_cons_of_mem _ hd))
    refine ⟨L, h1, h3, fun e => ?_⟩
    rw [h4 e]
    simp only [registered_for]
    rw [getD_modify_append _ _ _ _ (by rw [hl]; exact hc1), List.filter_cons]
    by_cases hce : c.1 = e <;> simp [hce]

theorem count_registered (calls : List (Nat × IAppHook)) (e : Nat) (h : IAppHook) :
    List.count (Call.on_event h) ((registered_for calls e).map Call.on_event) =
      List.count (e, h) calls := by
  induction calls with
  | nil => rfl
  | cons c rest ih =>
    obtain ⟨ce, ch⟩ := c
    simp only [registered_for, List.map_map] at ih ⊢
    rw [List.filter_cons]
    by_cases hce : ce = e
    · subst hce
      by_cases hh : ch = h
      · subst hh
        simp [ih]
      · have hne : ¬ (Call.on_event ch = Call.on_event h) := fun hc => hh (by injection hc)
        have hne2 : ¬ ((ce, ch) = (ce, h)) := fun hc => hh (by injection hc)
        simp [ih, List.count_cons, hne, hne2, hh]
    · have hne2 : ¬ ((ce, ch) = (e, h)) := fun hc => hce (by injection hc)
      simp [ih, List.count_cons, hce, hne2]

/-! ## Destructor -/

theorem flatten_take_succ (L : List (List IAppHook)) (k : Nat) :
    (L.take (k + 1)).flatten = (L.take k).flatten ++ L.getD k [] := by
  rw [List.take_succ, List.flatten_append, List.getD_eq_getElem?_getD]
  cases L[k]? <;> simp

theorem destroy_step (L : List (List IAppHook)) (k : Nat) (hk : k < L.length) :
    (List.replicate k [] ++ L.drop k).getD k [] = L.getD k [] ∧
      (List.replicate k [] ++ L.drop k).set k [] =
        List.replicate (k + 1) [] ++ L.drop (k + 1) := by
  constructor
  · rw [List.getD_eq_getElem?_getD, List.getD_eq_getElem?_getD,
      List.getElem?_append_right (by simp)]
    simp
  · rw [List.set_append]
    simp only [List.length_replicate, Nat.lt_irrefl, if_false, Nat.sub_self]
    rw [List.drop_eq_getElem_cons hk, List.set_cons_zero, List.replicate_succ',
      List.append_assoc]
    rfl

theorem delete_hooks_eq : ∀ (hooks : List IAppHook) (s : World × List IAppHook),
    (s.2 ++ hooks).Nodup →
      App.delete_hooks hooks s =
        some ({ s.1 with trace := s.1.trace ++ hooks.map Call.delete_hook }, s.2 ++ hooks) := by
  intro hooks
  induction hooks with
  | nil => intro s _; simp [App.delete_hooks]
  | cons h t ih =>
    intro s hn
    have hmem : h ∉ s.2 := by
      intro hm
      have := (List.nodup_append.1 hn).2.2 hm (List.mem_cons_self h t)
      exact this
    have hn2 : ((s.2 ++ [h]) ++ t).Nodup := by
      rw [List.append_assoc]
      exact hn
    rw [App.delete_hooks, App.delete_apphook, if_neg hmem]
    simp only
    rw [ih _ hn2]
    simp [call]

theorem destroy_events_append : ∀ (l1 l2 : List Nat) (s : World × List IAppHook),
    App.destroy_events (l1 ++ l2) s =
      (App.destroy_events l1 s).bind (App.destroy_events l2) := by
  intro l1
  induction l1 with
  | nil => intro l2 s; rfl
  | cons c cs ih =>
    intro l2 s
    rw [List.cons_append, App.destroy_events, App.destroy_events]
    cases App.delete_hooks (s.1.m_apphooks.getD c []) s with
    | none => rfl
    | some s1 => exact ih l2 _

theorem nodup_flatten_take (L : List (List IAppHook)) (k : Nat) (h : L.flatten.Nodup) :
    (L.take k).flatten.Nodup := by
  have hsplit : L.flatten = (L.take k).flatten ++ (L.drop k).flatten := by
    rw [← List.flatten_append, List.take_append_drop]
  rw [hsplit] at h
  exact (List.nodup_append.1 h).1

theorem destroy_events_range (w : World) (hn : w.m_apphooks.flatten.Nodup) :
    ∀ k, k ≤ w.m_apphooks.length →
      App.destroy_events (List.range k) (w, []) =
        some ({ w with
            trace := w.trace ++ ((w.m_apphooks.take k).flatten).map Call.delete_hook
            m_apphooks := List.replicate k [] ++ w.m_apphooks.drop k },
          (w.m_apphooks.take k).flatten) := by
  intro k
  induction k with
  | zero => intro _; simp [App.destroy_events]
  | succ k ih =>
    intro hk
    rw [List.range_succ, destroy_events_append, ih (by omega)]
    simp only [Option.some_bind, App.destroy_events]
    obtain ⟨h1, h2⟩ := destroy_step w.m_apphooks k (by omega)
    rw [h1, delete_hooks_eq _ _ (by
      simp only
      rw [← flatten_take_succ]
      exact nodup_flatten_take _ _ hn)]
    simp only
    rw [h2, flatten_take_succ]
    simp

theorem destroy_hooks_eq (E : Env) (w : World) (hlen : w.m_apphooks.length = E.NumEvents)
    (hn : w.m_apphooks.flatten.Nodup) :
    App.destroy_hooks E w =
      some { w with
        trace := w.trace ++ (w.m_apphooks.flatten).map Call.delete_hook
        m_apphooks := List.replicate E.NumEvents [] } := by
  unfold App.destroy_hooks
  rw [destroy_events_range w hn E.NumEvents (by omega), ← hlen]
  simp

theorem finalize_eq (w : World) :
    App.finalize w = { w with trace := w.trace ++ finalize_calls } := by
  simp [App.finalize, call, finalize_calls]

theorem dtor_eq (E : Env) (w : World) (hlen : w.m_apphooks.length = E.NumEvents)
    (hExit : E.Exit < E.NumEvents) (hn : w.m_apphooks.flatten.Nodup) :
    App.dtor E w =
      some { w with
        trace := w.trace ++ (w.m_apphooks.getD E.Exit []).map Call.on_event ++
          (w.m_apphooks.flatten).map Call.delete_hook ++ finalize_calls
        m_apphooks := List.replicate E.NumEvents [] } := by
  rw [App.dtor, trigger_event_eq E E.Exit w hExit]
  simp only
  rw [destroy_hooks_eq E _ (by exact hlen) (by exact hn)]
  simp only
  rw [finalize_eq]

theorem exit_hooks_nodup (E : Env) (w : World) (hn : w.m_apphooks.flatten.Nodup) :
    (w.m_apphooks.getD E.Exit []).Nodup := by
  rw [List.getD_eq_getElem?_getD]
  cases h : w.m_apphooks[E.Exit]? with
  | none => simp
  | some l =>
    have hmem : l ∈ w.m_apphooks := List.getElem?_mem h
    exact List.Nodup.sublist (List.sublist_flatten_of_mem hmem) hn

theorem count_on_event_dtor (exit flat : List IAppHook) (h : IAppHook) (hn : exit.Nodup) :
    List.count (Call.on_event h)
        (exit.map Call.on_event ++ flat.map Call.delete_hook ++ finalize_calls) =
      if h ∈ exit then 1 else 0 := by
  have hinj : Function.Injective Call.on_event := fun a b hab => by injection hab
  have h2 : List.count (Call.on_event h) (flat.map Call.delete_hook) = 0 :=
    List.count_eq_zero_of_not_mem (by simp)
  have h3 : List.count (Call.on_event h) finalize_calls = 0 :=
    List.count_eq_zero_of_not_mem (by simp [finalize_calls])
  rw [List.count_append, List.count_append, List.count_map_of_injective _ _ hinj, h2, h3]
  by_cases hm : h ∈ exit
  · rw [if_pos hm, List.count_eq_one_of_mem hn hm]
  · rw [if_neg hm, List.count_eq_zero_of_not_mem hm]

/-! ## Constructor -/

theorem setup_trace (E : Env) (argv : List CStr) (w0 : World) :
    (App.App_setup E argv w0).trace =
      w0.trace ++ setup_calls
        (if (App.App_setup E argv w0).ase_mode &&& E.MODE_GUI ≠ 0 then E.REQUIRE_INTERFACE
          else 0) := by
  unfold App.App_setup
  simp only [check_args_eq, call, setup_calls]
  split <;> simp [(run_args_frame E argv.tail _).1]

theorem setup_palette (E : Env) (argv : List CStr) (w0 : World) :
    (∀ i v, last_palette_value argv.tail i v →
        (App.App_setup E argv w0).palette_filename = some v) ∧
      (no_palette_value argv.tail →
        (App.App_setup E argv w0).palette_filename = w0.palette_filename) := by
  unfold App.App_setup
  simp only [check_args_eq, call]
  constructor
  · intro i v h
    split <;> simp [(run_args_palette E argv.tail _).1 i v h]
  · intro h
    split <;> simp [(run_args_palette E argv.tail _).2 h]

theorem setup_pimpl (E : Env) (argv : List CStr) (w0 : World) :
    (App.App_setup E argv w0).m_options = (queued_files argv.tail).map open_sprite ∧
      (App.App_setup E argv w0).m_apphooks = List.replicate E.NumEvents [] := by
  unfold App.App_setup
  simp only [check_args_eq, call]
  constructor
  · split <;> simp [run_args_options]
  · split <;> simp [(run_args_frame E argv.tail _).2.1]

theorem setup_mode (E : Env) (argv : List CStr) (w0 : World)
    (hB : E.MODE_BATCH ≠ 0) (hG : E.MODE_GUI ≠ 0)
    (hVB : E.MODE_VERBOSE &&& E.MODE_BATCH = 0) (hVG : E.MODE_VERBOSE &&& E.MODE_GUI = 0)
    (hBG : E.MODE_BATCH &&& E.MODE_GUI = 0)
    (h0B : w0.ase_mode &&& E.MODE_BATCH = 0) (h0G : w0.ase_mode &&& E.MODE_GUI = 0) :
    ((App.App_setup E argv w0).ase_mode &&& E.MODE_BATCH ≠ 0 ↔
        some_parsed batch_kind argv.tail) ∧
      ((App.App_setup E argv w0).ase_mode &&& E.MODE_GUI ≠ 0 ↔
        ¬ (App.App_setup E argv w0).ase_mode &&& E.MODE_BATCH ≠ 0) := by
  unfold App.App_setup
  simp only [check_args_eq, call]
  have hm := run_args_mode E hB hVB hVG hBG argv.tail
    { w0 with
      m_exe_name := argv.head?
      m_options := []
      m_return_code := 0
      m_apphooks := List.replicate E.NumEvents []
      trace := w0.trace ++ [Call.intl_init] ++ [Call.core_init] ++ [Call.file_system_init] ++
        [Call.ase_config_init] ++ [Call.intl_load_lang] }
  simp only [h0B, h0G, ne_eq, not_true_eq_false, false_or] at hm
  have hGB : E.MODE_GUI &&& E.MODE_BATCH = 0 := by rw [Nat.and_comm]; exact hBG
  split
  · rename_i hz
    simp only [or_and_disjoint _ _ _ hGB, or_and_self]
    rw [hz]
    refine ⟨?_, by simp [hG]⟩
    rw [← hm.1, hz]
  · rename_i hz
    exact ⟨hm.1, fun h => absurd hm.2 h, fun h => absurd hz h⟩

theorem getD_replicate_nil (n e : Nat) :
    (List.replicate n ([] : List IAppHook)).getD e [] = [] := by
  rw [List.getD_eq_getElem?_getD]
  by_cases h : e < n
  · simp [List.getElem?_replicate, h]
  · simp [List.getElem?_replicate, h]

theorem drop_length_append (l m : List Call) : (l ++ m).drop l.length = m := by
  simp

theorem filterMap_init_hooks (f : IAppHook → Call) (hf : ∀ h, init_of (f h) = none)
    (l : List IAppHook) : (l.map f).filterMap init_of = [] := by
  induction l with
  | nil => rfl
  | cons a t ih => simp [List.filterMap_cons, hf a, ih]

theorem ctor_no_palette (E : Env) (argv : List CStr) (w0 : World)
    (hp : (App.App_setup E argv w0).palette_filename = none) :
    App.App E argv w0 =
      Except.ok (call (Call.set_current_palette none true) (App.App_setup E argv w0)) := by
  unfold App.App
  simp only [hp]

theorem ctor_load_fails (E : Env) (argv : List CStr) (w0 : World) (f : CStr)
    (hp : (App.App_setup E argv w0).palette_filename = some f)
    (hl : E.palette_load f = none) :
    App.App E argv w0 =
      Except.error (⟨"Error loading default palette from: ".toList ++ f⟩,
        call (Call.palette_load f) (App.App_setup E argv w0)) := by
  unfold App.App
  simp only [hp, hl]

theorem ctor_load_succeeds (E : Env) (argv : List CStr) (w0 : World) (f : CStr) (pal : Palette)
    (hp : (App.App_setup E argv w0).palette_filename = some f)
    (hl : E.palette_load f = some pal) :
    App.App E argv w0 =
      Except.ok (call (Call.set_current_palette none true)
        (call (Call.palette_free pal)
          (call (Call.set_default_palette pal)
            (call (Call.palette_load f) (App.App_setup E argv w0))))) := by
  unfold App.App
  simp only [hp, hl]

/-- C1, as amended: on the registry that the constructor creates, after any
sequence of `add_hook` calls with events in range, the list of every event
holds the hooks registered for it in registration order, and
`trigger_event e` calls `on_event` once for each registration of a hook for
`e`, in registration order: a hook registered `k` times for `e` is called `k`
times (once when registered once, never when registered only for another
event).  It changes nothing but the trace: every hook list is as before. -/
theorem trigger_event_dispatch (E : Env) (w0 : World) (calls : List (Nat × IAppHook)) (e : Nat)
    (h0 : w0.m_apphooks = List.replicate E.NumEvents [])
    (hc : ∀ c ∈ calls, c.1 < E.NumEvents) (he : e < E.NumEvents) :
    ∃ L : List (List IAppHook),
      App.add_hooks E calls w0 = some { w0 with m_apphooks := L } ∧
      (∀ e1, L.getD e1 [] = registered_for calls e1) ∧
      App.trigger_event E e { w0 with m_apphooks := L } =
        some { w0 with
          m_apphooks := L
          trace := w0.trace ++ (registered_for calls e).map Call.on_event } ∧
      ∀ h, List.count (Call.on_event h) ((registered_for calls e).map Call.on_event) =
        List.count (e, h) calls := by
  obtain ⟨L, h1, _, h3⟩ := add_hooks_spec E calls w0 (by rw [h0]; simp) hc
  have h4 : ∀ e1, L.getD e1 [] = registered_for calls e1 := by
    intro e1
    rw [h3 e1, h0, getD_replicate_nil]
    rfl
  refine ⟨L, h1, h4, ?_, count_registered calls e⟩
  rw [trigger_event_eq E e _ he]
  simp only [h4 e]

theorem trigger_event_dispatch_witness :
    ∃ L : List (List IAppHook),
      App.add_hooks demo_env demo_calls demo_world = some { demo_world with m_apphooks := L } ∧
      (∀ e1, L.getD e1 [] = registered_for demo_calls e1) ∧
      App.trigger_event demo_env 0 { demo_world with m_apphooks := L } =
        some { demo_world with
          m_apphooks := L
          trace := demo_world.trace ++ (registered_for demo_calls 0).map Call.on_event } ∧
      ∀ h, List.count (Call.on_event h) ((registered_for demo_calls 0).map Call.on_event) =
        List.count (0, h) demo_calls :=
  trigger_event_dispatch demo_env demo_world demo_calls 0 rfl (by decide) (by decide)

/-- C1 as stated fails when one hook is registered twice for the event:
after `add_hook(0, 7)` and `add_hook(0, 7)`, `trigger_event(0)` calls
`on_event` on hook 7 twice, not exactly once. -/
theorem trigger_event_repeated_hook :
    ((App.add_hooks demo_env [(0, 7), (0, 7)] demo_world).bind
        (App.trigger_event demo_env 0)).map World.trace =
      some [Call.on_event 7, Call.on_event 7] ∧
    List.count (Call.on_event 7) [Call.on_event 7, Call.on_event 7] = 2 := by
  decide

/-- C7, as amended: for every registry with one list per event type in which
no hook pointer is held twice, the destructor first calls `on_event` exactly
once on each hook registered for `AppEvent::Exit`, in registration order, and
on no other hook; then deletes every hook of every event, each once; then
finalises the subsystems; afterwards the registry still has one list per
event type and every list is empty. -/
theorem dtor_exit_dispatch (E : Env) (w : World)
    (hlen : w.m_apphooks.length = E.NumEvents) (hExit : E.Exit < E.NumEvents)
    (hn : w.m_apphooks.flatten.Nodup) :
    ∃ w1, App.dtor E w = some w1 ∧
      w1.trace =
        w.trace ++ (w.m_apphooks.getD E.Exit []).map Call.on_event ++
          (w.m_apphooks.flatten).map Call.delete_hook ++
          [Call.modules_exit, Call.delete_pimpl, Call.editor_cursor_exit, Call.boundary_exit,
            Call.gfxobj_exit, Call.ase_config_exit, Call.file_system_exit, Call.core_exit,
            Call.intl_exit] ∧
      (∀ h, List.count (Call.on_event h) (calls_since w w1) =
        if h ∈ w.m_apphooks.getD E.Exit [] then 1 else 0) ∧
      w1.m_apphooks.length = E.NumEvents ∧ ∀ l ∈ w1.m_apphooks, l = [] := by
  refine ⟨_, dtor_eq E w hlen hExit hn, rfl, ?_, by simp, ?_⟩
  · intro h
    simp only [calls_since]
    rw [List.append_assoc, List.append_assoc, drop_length_append, ← List.append_assoc]
    exact count_on_event_dtor _ _ h (exit_hooks_nodup E w hn)
  · intro l hl
    exact (List.mem_replicate.1 hl).2

theorem dtor_exit_dispatch_witness :
    ∃ w1, App.dtor demo_env demo_hooked = some w1 ∧
      w1.trace =
        demo_hooked.trace ++ (demo_hooked.m_apphooks.getD demo_env.Exit []).map Call.on_event ++
          (demo_hooked.m_apphooks.flatten).map Call.delete_hook ++
          [Call.modules_exit, Call.delete_pimpl, Call.editor_cursor_exit, Call.boundary_exit,
            Call.gfxobj_exit, Call.ase_config_exit, Call.file_system_exit, Call.core_exit,
            Call.intl_exit] ∧
      (∀ h, List.count (Call.on_event h) (calls_since demo_hooked w1) =
        if h ∈ demo_hooked.m_apphooks.getD demo_env.Exit [] then 1 else 0) ∧
      w1.m_apphooks.length = demo_env.NumEvents ∧ ∀ l ∈ w1.m_apphooks, l = [] :=
  dtor_exit_dispatch demo_env demo_hooked rfl (by decide) (by decide)

/-- C7 as stated fails for a registry that holds one hook pointer twice:
`add_hook(0, 7)` and `add_hook(1, 7)` leave hook 7 in the lists of both
events, and the destructor, deleting it a second time, never reaches the
finalisation of the subsystems. -/
theorem dtor_shared_hook :
    (App.add_hooks demo_env [(0, 7), (1, 7)] demo_world).map World.m_apphooks =
        some demo_shared.m_apphooks ∧
      demo_shared.m_apphooks.length = demo_env.NumEvents ∧
      (App.dtor demo_env demo_shared).isNone = true := by
  decide

/-- C2: after `check_args` the queue is what it was before followed by one
`OpenSprite` option for each argument after `argv[0]` that has no leading
dash and is not consumed as the value of a preceding palette or resolution
option, in command-line order; in the constructor, where the queue starts
empty, it is exactly that.  The queued names form a sub-sequence of
`argv[1..]`, so `argv[0]` is never queued and no argument is queued twice. -/
theorem check_args_queue (E : Env) (argv : List CStr) (w : World) :
    (App.check_args E argv w).m_options =
        w.m_options ++ (queued_files argv.tail).map open_sprite ∧
      (App.App_setup E argv w).m_options = (queued_files argv.tail).map open_sprite ∧
      List.Sublist (queued_files argv.tail) argv.tail ∧
      ∀ o ∈ (queued_files argv.tail).map open_sprite, o.m_type = Option_.OpenSprite := by
  refine ⟨?_, (setup_pimpl E argv w).1, queued_files_sublist argv.tail, ?_⟩
  · rw [check_args_eq, run_args_options]
  · intro o ho
    obtain ⟨a, _, rfl⟩ := List.mem_map.1 ho
    rfl

theorem arg_effect_next (E : Env) (a : CStr) (n1 n2 : Option CStr) (w : World)
    (h : ¬ takes_value a = true) : arg_effect E a n1 w = arg_effect E a n2 w := by
  cases hc : classify a with
  | file => rw [arg_effect_file E a n1 w hc, arg_effect_file E a n2 w hc]
  | dashes => rw [arg_effect_dashes E a n1 w hc, arg_effect_dashes E a n2 w hc]
  | palette => exact absurd ((takes_value_iff a).2 (Or.inl hc)) h
  | resolution => exact absurd ((takes_value_iff a).2 (Or.inr hc)) h
  | verbose => rw [arg_effect_verbose E a n1 w hc, arg_effect_verbose E a n2 w hc]
  | help => rw [arg_effect_help E a n1 w hc, arg_effect_help E a n2 w hc]
  | version => rw [arg_effect_version E a n1 w hc, arg_effect_version E a n2 w hc]
  | invalid => rw [arg_effect_invalid E a n1 w hc, arg_effect_invalid E a n2 w hc]

theorem run_args_erase_dashes (E : Env) : ∀ (args : List CStr) (i : Nat) (w : World),
    parsed_as args i ArgKind.dashes = true →
      run_args E (args.eraseIdx i) w = run_args E args w := by
  apply args_induction
  · intro i w h
    simp [parsed_as_nil] at h
  · intro a i w h
    match i, h with
    | 0, h =>
      rw [parsed_as_zero] at h
      rw [List.eraseIdx_cons_zero, run_args, run_args,
        arg_effect_dashes E a none w (of_decide_eq_true h)]
    | i + 1, h => simp [parsed_as_single_succ] at h
  · intro a v rest ht ih i w h
    match i, h with
    | 0, h =>
      rw [parsed_as_zero] at h
      have hk : classify a = ArgKind.dashes := of_decide_eq_true h
      rw [takes_value_iff, hk] at ht
      simp at ht
    | 1, h => simp [parsed_as_value_one a v rest _ ht] at h
    | i + 2, h =>
      rw [parsed_as_value_add_two a v rest i _ ht] at h
      rw [List.eraseIdx_cons_succ, List.eraseIdx_cons_succ, run_args, run_args, if_pos ht,
        if_pos ht]
      exact ih i _ h
  · intro a v rest ht ih i w h
    match i, h with
    | 0, h =>
      rw [parsed_as_zero] at h
      rw [List.eraseIdx_cons_zero, run_args, if_neg ht,
        arg_effect_dashes E a (some v) w (of_decide_eq_true h)]
    | i + 1, h =>
      rw [parsed_as_plain_succ a v rest i _ ht] at h
      have ih1 := ih i (arg_effect E a (some v) w) h
      rw [List.eraseIdx_cons_succ]
      cases hX : (v :: rest).eraseIdx i with
      | nil =>
        rw [hX] at ih1
        rw [run_args] at ih1
        rw [run_args, run_args, if_neg ht, ← ih1]
        exact arg_effect_next E a none (some v) w ht
      | cons x xs =>
        rw [hX] at ih1
        rw [run_args, run_args, if_neg ht, if_neg ht, arg_effect_next E a (some x) (some v) w ht]
        exact ih1

/-- C8, as amended: `check_args` leaves the return code at 1 when some argument
is parsed as an unrecognised option or as a palette or resolution option with
no following value, and leaves it as it was otherwise; so from the initial 0
it is 1 exactly in that case.  An iteration that examines help, version,
verbose, a file name or an option with its value keeps the return code.  An
argument made only of dashes that the loop examines (one not taken as the
value of a preceding palette or resolution option) changes no state at all:
the iteration on it is the identity, and `check_args` gives the same state
as on the command line without that argument. -/
theorem check_args_return_code (E : Env) (argv : List CStr) (w : World) :
    (usage_error argv.tail → (App.check_args E argv w).m_return_code = 1) ∧
      (¬ usage_error argv.tail →
        (App.check_args E argv w).m_return_code = w.m_return_code) ∧
      ((App.check_args E argv { w with m_return_code := 0 }).m_return_code = 1 ↔
        usage_error argv.tail) ∧
      (∀ i v, (classify (argv.getD i []) = ArgKind.help ∨
            classify (argv.getD i []) = ArgKind.version ∨
            classify (argv.getD i []) = ArgKind.verbose ∨
            classify (argv.getD i []) = ArgKind.file ∨
            ((classify (argv.getD i []) = ArgKind.palette ∨
              classify (argv.getD i []) = ArgKind.resolution) ∧ i + 1 < argv.length)) →
          (App.check_args_body E argv i v).2.m_return_code = v.m_return_code) ∧
      (∀ i v, classify (argv.getD i []) = ArgKind.dashes →
          App.check_args_body E argv i v = (i, v)) ∧
      (∀ i, parsed_as argv.tail i ArgKind.dashes = true →
          App.check_args E (argv.eraseIdx (i + 1)) w = App.check_args E argv w) := by
  refine ⟨?_, ?_, ?_, ?_, ?_, ?_⟩
  · intro h
    rw [check_args_eq]
    exact (run_args_code E argv.tail w).1 ((usage_error_iff _).1 h)
  · intro h
    rw [check_args_eq]
    exact (run_args_code E argv.tail w).2 (fun hs => h ((usage_error_iff _).2 hs))
  · rw [check_args_eq, usage_error_iff]
    constructor
    · intro h
      by_contra hn
      rw [(run_args_code E argv.tail _).2 hn] at h
      simp at h
    · exact (run_args_code E argv.tail _).1
  · intro i v h
    rw [check_args_body_eq]
    apply arg_effect_code_keep
    rintro (hk | ⟨hl, hk⟩)
    · rw [hk] at h
      simp at h
    · have hi : ¬ i + 1 < argv.length := by
        intro hi
        rw [List.getElem?_eq_getElem hi] at hl
        simp at hl
      rcases hk with hk | hk <;> rw [hk] at h <;> simp [hi] at h
  · intro i v h
    have ht : ¬ takes_value (argv.getD i []) = true := by
      rw [takes_value_iff, h]
      simp
    rw [check_args_body_eq, if_neg ht, arg_effect_dashes E _ _ v h]
  · intro i h
    cases argv with
    | nil => simp [parsed_as_nil] at h
    | cons exe args =>
      rw [check_args_eq, check_args_eq, List.eraseIdx_cons_succ]
      exact run_args_erase_dashes E args i w h

/-- C8 as stated fails for a dashes-only argument that follows a palette or
resolution option: in `ase -p --` the argument `--` becomes the palette file
name (and no usage error is reported), and in `ase -r --` it is read as a
depth and written to the configuration. -/
theorem check_args_dashes_value :
    demo_world.palette_filename = none ∧
      (App.check_args demo_env ["ase".toList, "-p".toList, "--".toList]
        demo_world).palette_filename = some "--".toList ∧
      (App.check_args demo_env ["ase".toList, "-p".toList, "--".toList]
        demo_world).m_return_code = 0 ∧
      demo_world.config "GfxMode" "Depth" = none ∧
      (App.check_args demo_env ["ase".toList, "-r".toList, "--".toList]
        demo_world).config "GfxMode" "Depth" = some 0 := by
  decide

theorem ctor_world_mode (E : Env) (argv : List CStr) (w0 : World) :
    (App.App_world (App.App E argv w0)).ase_mode = (App.App_setup E argv w0).ase_mode := by
  cases hp : (App.App_setup E argv w0).palette_filename with
  | none => rw [ctor_no_palette E argv w0 hp]; rfl
  | some f =>
    cases hl : E.palette_load f with
    | none => rw [ctor_load_fails E argv w0 f hp hl]; rfl
    | some pal => rw [ctor_load_succeeds E argv w0 f pal hp hl]; rfl

/-- C3: with mode flags that are distinct bits and a mode word that starts
with neither `MODE_BATCH` nor `MODE_GUI`, the constructor (returning or
throwing) leaves `MODE_BATCH` set exactly when some argument is parsed as
help, as version, as an unrecognised option, or as a palette or resolution
option that is the last argument, and leaves `MODE_GUI` set exactly when
`MODE_BATCH` is not; a command line of only file names, verbose, and palette
or resolution options with values gives GUI mode. -/
theorem gui_is_default_mode (E : Env) (argv : List CStr) (w0 : World)
    (hB : E.MODE_BATCH ≠ 0) (hG : E.MODE_GUI ≠ 0)
    (hVB : E.MODE_VERBOSE &&& E.MODE_BATCH = 0) (hVG : E.MODE_VERBOSE &&& E.MODE_GUI = 0)
    (hBG : E.MODE_BATCH &&& E.MODE_GUI = 0)
    (h0B : w0.ase_mode &&& E.MODE_BATCH = 0) (h0G : w0.ase_mode &&& E.MODE_GUI = 0) :
    ((App.App_world (App.App E argv w0)).ase_mode &&& E.MODE_BATCH ≠ 0 ↔
        batch_request argv.tail) ∧
      ((App.App_world (App.App E argv w0)).ase_mode &&& E.MODE_GUI ≠ 0 ↔
        ¬ (App.App_world (App.App E argv w0)).ase_mode &&& E.MODE_BATCH ≠ 0) ∧
      ((∀ i k, parsed_as argv.tail i k = true →
          k = ArgKind.file ∨ k = ArgKind.verbose ∨
            ((k = ArgKind.palette ∨ k = ArgKind.resolution) ∧ i + 1 < argv.tail.length)) →
        (App.App_world (App.App E argv w0)).ase_mode &&& E.MODE_GUI ≠ 0 ∧
          (App.App_world (App.App E argv w0)).ase_mode &&& E.MODE_BATCH = 0) := by
  have hm := setup_mode E argv w0 hB hG hVB hVG hBG h0B h0G
  rw [ctor_world_mode, batch_kind_iff]
  refine ⟨hm.1, hm.2, ?_⟩
  intro hall
  have hnb : ¬ some_parsed batch_kind argv.tail := by
    rintro ⟨i, k, hp, hk⟩
    have hik := hall i k hp
    rcases hk with hk | hk | hk | ⟨hl, hk⟩
    · subst hk
      rcases hik with h | h | ⟨h | h, _⟩ <;> cases h
    · subst hk
      rcases hik with h | h | ⟨h | h, _⟩ <;> cases h
    · subst hk
      rcases hik with h | h | ⟨h | h, _⟩ <;> cases h
    · have hl2 : i + 1 = argv.tail.length := of_decide_eq_true hl
      rcases hik with h | h | ⟨_, h⟩
      · subst h
        rcases hk with hk | hk <;> cases hk
      · subst h
        rcases hk with hk | hk <;> cases hk
      · omega
  have hz : ¬ (App.App_setup E argv w0).ase_mode &&& E.MODE_BATCH ≠ 0 := fun h => hnb (hm.1.1 h)
  exact ⟨hm.2.2 hz, not_not.1 hz⟩

theorem gui_is_default_mode_witness :
    ((App.App_world (App.App demo_env demo_argv demo_world)).ase_mode &&& demo_env.MODE_BATCH ≠ 0 ↔
        batch_request demo_argv.tail) ∧
      ((App.App_world (App.App demo_env demo_argv demo_world)).ase_mode &&& demo_env.MODE_GUI ≠ 0 ↔
        ¬ (App.App_world (App.App demo_env demo_argv demo_world)).ase_mode &&&
          demo_env.MODE_BATCH ≠ 0) ∧
      ((∀ i k, parsed_as demo_argv.tail i k = true →
          k = ArgKind.file ∨ k = ArgKind.verbose ∨
            ((k = ArgKind.palette ∨ k = ArgKind.resolution) ∧ i + 1 < demo_argv.tail.length)) →
        (App.App_world (App.App demo_env demo_argv demo_world)).ase_mode &&& demo_env.MODE_GUI ≠ 0 ∧
          (App.App_world (App.App demo_env demo_argv demo_world)).ase_mode &&&
            demo_env.MODE_BATCH = 0) :=
  gui_is_default_mode demo_env demo_argv demo_world (by decide) (by decide) (by decide)
    (by decide) (by decide) (by decide) (by decide)

theorem match_tokens_count (n : Nat) (a b c d : Config) :
    (n = 0 ∨ 3 < n) →
      (match n with
        | 1 => a
        | 2 => b
        | 3 => c
        | _ => d) = d := by
  intro h
  match n, h with
  | 0, _ => rfl
  | 1, h => omega
  | 2, h => omega
  | 3, h => omega
  | _ + 4, _ => rfl

/-- C4: when the loop examines a resolution option at index `i` and a value
`argv[i+1]` follows, the iteration consumes the value and, with the value
split on `'x'` into its non-empty tokens and each token read by `ustrtol`:
one token sets only Depth; two tokens set Width and Height and leave Depth
unchanged; three tokens set Width, Height and Depth; no token or more than
three tokens leave the configuration unchanged. -/
theorem resolution_option_value (E : Env) (argv : List CStr) (i : Nat) (w : World)
    (hi : i + 1 < argv.length) (hopt : classify (argv.getD i []) = ArgKind.resolution) :
    (App.check_args_body E argv i w).1 = i + 1 ∧
      (∀ t1, tokens (argv.getD (i + 1) []) = [t1] →
        (App.check_args_body E argv i w).2.config =
            set_config_int "GfxMode" "Depth" (E.ustrtol t1) w.config ∧
          (App.check_args_body E argv i w).2.config "GfxMode" "Width" =
            w.config "GfxMode" "Width" ∧
          (App.check_args_body E argv i w).2.config "GfxMode" "Height" =
            w.config "GfxMode" "Height") ∧
      (∀ t1 t2, tokens (argv.getD (i + 1) []) = [t1, t2] →
        (App.check_args_body E argv i w).2.config =
            set_config_int "GfxMode" "Height" (E.ustrtol t2)
              (set_config_int "GfxMode" "Width" (E.ustrtol t1) w.config) ∧
          (App.check_args_body E argv i w).2.config "GfxMode" "Depth" =
            w.config "GfxMode" "Depth") ∧
      (∀ t1 t2 t3, tokens (argv.getD (i + 1) []) = [t1, t2, t3] →
        (App.check_args_body E argv i w).2.config =
          set_config_int "GfxMode" "Depth" (E.ustrtol t3)
            (set_config_int "GfxMode" "Height" (E.ustrtol t2)
              (set_config_int "GfxMode" "Width" (E.ustrtol t1) w.config))) ∧
      ((tokens (argv.getD (i + 1) [])).length = 0 ∨ 3 < (tokens (argv.getD (i + 1) [])).length →
        (App.check_args_body E argv i w).2.config = w.config) := by
  have ht : takes_value (argv.getD i []) = true := (takes_value_iff _).2 (Or.inr hopt)
  have hv : argv[i + 1]? = some (argv.getD (i + 1) []) := by
    rw [List.getD_eq_getElem?_getD, List.getElem?_eq_getElem hi]
    simp
  rw [check_args_body_eq, if_pos ht, hv, arg_effect_resolution_some E _ _ w hopt]
  simp only
  rw [resolution_value_eq]
  refine ⟨trivial, ?_, ?_, ?_, ?_⟩
  · intro t1 h
    rw [h]
    refine ⟨rfl, ?_, ?_⟩ <;> simp [scan_tokens, resolution_tok, set_config_int]
  · intro t1 t2 h
    rw [h]
    refine ⟨rfl, ?_⟩
    simp [scan_tokens, resolution_tok, set_config_int]
  · intro t1 t2 t3 h
    rw [h]
    rfl
  · intro h
    apply match_tokens_count
    rw [scan_tokens_count]
    simpa using h

theorem resolution_option_value_witness :
    (App.check_args_body demo_env demo_argv 2 demo_world).2.config =
      set_config_int "GfxMode" "Depth" 8
        (set_config_int "GfxMode" "Height" 240
          (set_config_int "GfxMode" "Width" 320 demo_world.config)) :=
  (resolution_option_value demo_env demo_argv 2 demo_world (by decide) (by decide)).2.2.2.1
    "320".toList "240".toList "8".toList (by decide)

theorem parsed_as_lt (args : List CStr) (i : Nat) (k : ArgKind)
    (h : parsed_as args i k = true) : i < args.length := by
  by_contra hn
  have hnone : args[i]? = none := List.getElem?_eq_none (Nat.le_of_not_lt hn)
  simp [parsed_as, hnone] at h

theorem palette_cases : ∀ args : List CStr,
    no_palette_value args ∨ ∃ i v, last_palette_value args i v := by
  apply args_induction
  · left
    intro j hj
    simp [parsed_as_nil] at hj
  · intro a
    left
    intro j hj
    have := parsed_as_lt [a] j _ hj
    simp only [List.length_cons, List.length_nil] at this ⊢
    omega
  · intro a v rest ht ih
    rcases ih with hno | ⟨i, u, hp, hu, hlast⟩
    · by_cases hk : classify a = ArgKind.palette
      · right
        refine ⟨0, v, ?_, by simp, ?_⟩
        · rw [parsed_as_zero]; exact decide_eq_true hk
        · intro j hj hpj
          match j, hj, hpj with
          | 1, _, hpj => simp [parsed_as_value_one a v rest _ ht] at hpj
          | j + 2, _, hpj =>
            rw [parsed_as_value_add_two a v rest j _ ht] at hpj
            have := hno j hpj
            simp only [List.length_cons]
            omega
      · left
        intro j hpj
        match j, hpj with
        | 0, hpj =>
          rw [parsed_as_zero] at hpj
          exact absurd (of_decide_eq_true hpj) hk
        | 1, hpj => simp [parsed_as_value_one a v rest _ ht] at hpj
        | j + 2, hpj =>
          rw [parsed_as_value_add_two a v rest j _ ht] at hpj
          have := hno j hpj
          simp only [List.length_cons]
          omega
    · right
      refine ⟨i + 2, u, ?_, by simpa using hu, ?_⟩
      · rw [parsed_as_value_add_two a v rest i _ ht]; exact hp
      · intro j hj hpj
        match j, hj, hpj with
        | 0, hj, _ => omega
        | 1, hj, _ => omega
        | j + 2, hj, hpj =>
          rw [parsed_as_value_add_two a v rest j _ ht] at hpj
          have := hlast j (by omega) hpj
          simp only [List.length_cons]
          omega
  · intro a v rest ht ih
    have hk : classify a ≠ ArgKind.palette := fun hk => ht ((takes_value_iff a).2 (Or.inl hk))
    rcases ih with hno | ⟨i, u, hp, hu, hlast⟩
    · left
      intro j hpj
      match j, hpj with
      | 0, hpj =>
        rw [parsed_as_zero] at hpj
        exact absurd (of_decide_eq_true hpj) hk
      | j + 1, hpj =>
        rw [parsed_as_plain_succ a v rest j _ ht] at hpj
        have := hno j hpj
        simp only [List.length_cons] at this ⊢
        omega
    · right
      refine ⟨i + 1, u, ?_, by simpa using hu, ?_⟩
      · rw [parsed_as_plain_succ a v rest i _ ht]; exact hp
      · intro j hj hpj
        match j, hj, hpj with
        | 0, hj, _ => omega
        | j + 1, hj, hpj =>
          rw [parsed_as_plain_succ a v rest j _ ht] at hpj
          have := hlast j (by omega) hpj
          simp only [List.length_cons] at this ⊢
          omega

/-- C5: with no palette file name set before the constructor runs, the
command line either has no palette option with a value or has a last one.
With a last palette value `v`, the constructor calls `palette_load v` after
the set-up; if the load fails it throws `ase_exception` with the message
"Error loading default palette from: " followed by `v`, having made no call
that sets the default or the current palette; if the load gives `pal` it
returns after `set_default_palette pal`, `palette_free pal` and, last,
`set_current_palette(NULL, TRUE)`.  With no palette value it returns having
made no `palette_load` and no `set_default_palette` call, its last call being
`set_current_palette(NULL, TRUE)`. -/
theorem custom_default_palette (E : Env) (argv : List CStr) (w0 : World)
    (h0 : w0.palette_filename = none) :
    (no_palette_value argv.tail ∨ ∃ i v, last_palette_value argv.tail i v) ∧
    ∃ req : Nat,
      (∀ i v, last_palette_value argv.tail i v →
        (E.palette_load v = none →
          ∃ w, App.App E argv w0 =
              Except.error (⟨"Error loading default palette from: ".toList ++ v⟩, w) ∧
            w.trace = w0.trace ++ setup_calls req ++ [Call.palette_load v]) ∧
        (∀ pal, E.palette_load v = some pal →
          ∃ w, App.App E argv w0 = Except.ok w ∧
            w.trace = w0.trace ++ setup_calls req ++
              [Call.palette_load v, Call.set_default_palette pal, Call.palette_free pal,
                Call.set_current_palette none true])) ∧
      (no_palette_value argv.tail →
        ∃ w, App.App E argv w0 = Except.ok w ∧
          w.trace = w0.trace ++ setup_calls req ++ [Call.set_current_palette none true]) := by
  refine ⟨palette_cases argv.tail,
    if (App.App_setup E argv w0).ase_mode &&& E.MODE_GUI ≠ 0 then E.REQUIRE_INTERFACE else 0,
    ?_, ?_⟩
  · intro i v hv
    have hp : (App.App_setup E argv w0).palette_filename = some v :=
      (setup_palette E argv w0).1 i v hv
    constructor
    · intro hl
      refine ⟨_, ctor_load_fails E argv w0 v hp hl, ?_⟩
      simp only [call]
      rw [setup_trace]
    · intro pal hl
      refine ⟨_, ctor_load_succeeds E argv w0 v pal hp hl, ?_⟩
      simp only [call]
      rw [setup_trace]
      simp
  · intro hno
    have hp : (App.App_setup E argv w0).palette_filename = none := by
      rw [(setup_palette E argv w0).2 hno, h0]
    refine ⟨_, ctor_no_palette E argv w0 hp, ?_⟩
    simp only [call]
    rw [setup_trace]

theorem custom_default_palette_witness :
    (∃ req w, App.App demo_env demo_argv demo_world = Except.ok w ∧
        w.trace = demo_world.trace ++ setup_calls req ++
          [Call.palette_load "ok.pal".toList, Call.set_default_palette 7, Call.palette_free 7,
            Call.set_current_palette none true]) ∧
      ∃ req w, App.App demo_env demo_argv_missing demo_world =
          Except.error
            (⟨"Error loading default palette from: missing.pal".toList⟩, w) ∧
        w.trace = demo_world.trace ++ setup_calls req ++
          [Call.palette_load "missing.pal".toList] := by
  constructor
  · obtain ⟨req, h1, _⟩ := (custom_default_palette demo_env demo_argv demo_world rfl).2
    have hlast : last_palette_value demo_argv.tail 3 "ok.pal".toList := by
      refine ⟨by decide, by decide, ?_⟩
      intro j hj hp
      have hlt := parsed_as_lt _ j _ hp
      have h5 : demo_argv.tail.length = 5 := by decide
      have hj4 : j = 4 := by omega
      subst hj4
      exact absurd hp (by decide)
    obtain ⟨w, hw1, hw2⟩ := (h1 3 "ok.pal".toList hlast).2 7 (by decide)
    exact ⟨req, w, hw1, hw2⟩
  · obtain ⟨req, h1, _⟩ := (custom_default_palette demo_env demo_argv_missing demo_world rfl).2
    have hlast : last_palette_value demo_argv_missing.tail 0 "missing.pal".toList := by
      refine ⟨by decide, by decide, ?_⟩
      intro j hj hp
      have hlt := parsed_as_lt _ j _ hp
      have h2 : demo_argv_missing.tail.length = 2 := by decide
      have hj1 : j = 1 := by omega
      subst hj1
      exact absurd hp (by decide)
    obtain ⟨w, hw1, hw2⟩ := (h1 0 "missing.pal".toList hlast).1 (by decide)
    exact ⟨req, w, hw1, hw2⟩

end Ase
